import Mathlib

/-!
Verification of the structured-LLM-response pipeline of the repository
(`AI-code-migrations-agent`): a shallow embedding in Lean 4 of

* the `LLMClient` utility (`src/shared/utils/llm-client.ts`): the
  `generateResponse` retry loop, the `generateStructuredResponse`
  size/emptiness checks and JSON-extraction strategies, and the
  `repairTruncatedJson` truncation-repair routine;
* the stage sequencing of the two pipeline orchestrators
  (`ArchitectureInferenceAgent.analyze`, `CodeFlowAgent.analyze`);
* the rule-based fallbacks (`analyzeStructuralPatterns`,
  `calculateOverallRiskScore`, `calculateFileComplexity`);
* the run coordinator (`performAnalysis` in `src/api/index.ts`).

Strings are modelled as `List Char` (`Str`).  JavaScript exceptions are
modelled with `Option`/`Except`; asynchronous effects (provider calls,
back-off waits) are modelled with an explicit oracle argument and an
event trace, so that "the provider was never invoked" is a statement
about the returned trace.  JSON values are modelled with integer
numbers (`Int`); `JSON.parse` / `JSON.stringify` are modelled on the
corresponding grammar fragment (integer numeric literals, the string
escapes `\" \\ \b \f \n \r \t \/ \u00XX` that `JSON.stringify` emits).
-/

/-- JavaScript strings, modelled as lists of characters. -/
abbrev Str := List Char

/-- Whitespace as trimmed by JavaScript `String.prototype.trim` (the
ASCII part; the serializer escapes the control characters among them). -/
def isWsChar (c : Char) : Bool :=
  c = ' ' || c = '\t' || c = '\n' || c = '\r' || c = '\x0b' || c = '\x0c'

/-- Drop trailing characters satisfying `p`. -/
def dropWhileRight (p : Char → Bool) (s : Str) : Str :=
  (s.reverse.dropWhile p).reverse

/-- JavaScript `String.prototype.trim`. -/
def jsTrim (s : Str) : Str :=
  dropWhileRight isWsChar (s.dropWhile isWsChar)

/-- Index of the first occurrence of character `c` (JS `indexOf`,
with `none` for `-1`). -/
def indexOfChar (c : Char) : Str → Option Nat
  | [] => none
  | x :: xs =>
    if x = c then some 0
    else (indexOfChar c xs).map (· + 1)

/-- Index of the last occurrence of character `c` (JS `lastIndexOf`,
with `none` for `-1`). -/
def lastIndexOfChar (c : Char) : Str → Option Nat
  | [] => none
  | x :: xs =>
    match lastIndexOfChar c xs with
    | some j => some (j + 1)
    | none => if x = c then some 0 else none

/-- Index of the first occurrence of `needle` as a contiguous substring
(JS `String.prototype.indexOf` / the start of the leftmost regex match). -/
def indexOfSubstr (needle : Str) : Str → Option Nat
  | [] => if needle = [] then some 0 else none
  | x :: xs =>
    if needle.isPrefixOf (x :: xs) then some 0
    else (indexOfSubstr needle xs).map (· + 1)

/-- JS `String.prototype.includes`. -/
def strContains (hay needle : Str) : Bool :=
  (indexOfSubstr needle hay).isSome

/-- JS `String.prototype.toLowerCase` (ASCII). -/
def lowerStr (s : Str) : Str := s.map Char.toLower

/-- JS `str.split('/').length`: one more than the number of separators. -/
def splitSlashLen (s : Str) : Nat := s.count '/' + 1

/-- Number of occurrences of character `c` in `s`, as an integer. -/
def countCharZ (c : Char) (s : Str) : Int := (s.count c : Int)

/-!  ## Data model (`src/shared/types/index.ts`)  -/

/-- `FileInfo.type : 'file' | 'directory'`. -/
inductive FileType where
  | file
  | directory
deriving DecidableEq, Repr

/-- `FileInfo` from `src/shared/types/index.ts` (the `category` field is
never read by the functions verified here and is omitted). -/
structure FileInfo where
  path : Str
  name : Str
  type : FileType
  size : Option Nat := none
  extension : Option Str := none
  content : Option Str := none
deriving Repr

/-- The `files` field of `FileStructure` (the only field
`analyzeStructuralPatterns` reads). -/
structure FileStructure where
  totalFiles : Nat := 0
  totalDirectories : Nat := 0
  files : List FileInfo
deriving Repr

/-!  ## `analyzeStructuralPatterns` (architecture-inference agent,
rule-based pattern-detection fallback)  -/

/-- Shallow embedding of `ArchitectureInferenceAgent.analyzeStructuralPatterns`.
Patterns are pushed in source order: MVC, Layered, Microservices,
Component-Based. -/
def analyzeStructuralPatterns (fileStructure : FileStructure) : List Str :=
  let hasControllers := fileStructure.files.any fun f =>
    strContains (lowerStr f.path) "controller".data ||
    strContains (lowerStr f.path) "handlers".data
  let hasModels := fileStructure.files.any fun f =>
    strContains (lowerStr f.path) "model".data ||
    strContains (lowerStr f.path) "entity".data
  let hasViews := fileStructure.files.any fun f =>
    strContains (lowerStr f.path) "view".data ||
    strContains (lowerStr f.path) "template".data
  let hasLayers := fileStructure.files.any fun f =>
    strContains (lowerStr f.path) "service".data ||
    strContains (lowerStr f.path) "repository".data ||
    strContains (lowerStr f.path) "dao".data
  let hasDockerfiles := fileStructure.files.any fun f =>
    lowerStr f.name = "dockerfile".data ||
    lowerStr f.name = "docker-compose.yml".data
  let hasMultipleServices := fileStructure.files.any fun f =>
    strContains (lowerStr f.path) "service".data &&
    decide (splitSlashLen f.path > 2)
  let hasComponents := fileStructure.files.any fun f =>
    strContains (lowerStr f.path) "component".data ||
    strContains (lowerStr f.path) "module".data
  (if hasControllers && hasModels && hasViews then ["MVC".data] else []) ++
  (if hasLayers then ["Layered".data] else []) ++
  (if hasDockerfiles || hasMultipleServices then ["Microservices".data] else []) ++
  (if hasComponents then ["Component-Based".data] else [])

/-!  ## Risk-assessment data model and `calculateOverallRiskScore`  -/

/-- `DependencyRisk.riskLevel`. -/
inductive RiskLevel where
  | low
  | medium
  | high
  | critical
deriving DecidableEq, Repr

/-- `MigrationBlocker.severity`. -/
inductive BlockerSeverity where
  | blocker
  | critical
  | major
  | minor
deriving DecidableEq, Repr

/-- `DependencyRisk` (issue/recommendation payloads kept abstract as
strings; only `riskLevel` is read by the scoring function). -/
structure DependencyRisk where
  name : Str
  currentVersion : Str := []
  riskLevel : RiskLevel
deriving Repr

/-- `MigrationBlocker` (only `severity` is read by the scoring function). -/
structure MigrationBlocker where
  id : Str
  severity : BlockerSeverity
  title : Str := []
deriving Repr

/-- `FileComplexityMetric`.  `maintainabilityIndex` is a rational because
the source computes it with floating-point `Math.log`; the logarithm is
abstracted as a parameter `log` below. -/
structure FileComplexityMetric where
  file : Str
  linesOfCode : Nat
  complexity : Nat
  maintainabilityIndex : ℚ
  riskLevel : RiskLevel
  issues : List Str
deriving Repr

/-- The `overallComplexity` record built inside `RiskAssessmentAgent.analyze`. -/
structure OverallComplexity where
  totalLinesOfCode : Nat
  averageFileSize : ℚ
  largestFiles : List Str
  cyclomaticComplexity : ℚ
  maintainabilityIndex : ℚ
deriving Repr

/-- `ComplexityMetrics` (the `complexityHotspots` field is not read by
the scoring function and is kept as the list of hotspot locations). -/
structure ComplexityMetrics where
  fileComplexity : List FileComplexityMetric
  overallComplexity : OverallComplexity
deriving Repr

/-- Shallow embedding of `RiskAssessmentAgent.calculateOverallRiskScore`:
complexity contribution capped at 40, 10 per critical dependency,
5 per high dependency, 15 per blocker-severity blocker, 10 per
critical-severity blocker, total capped at 100. -/
def calculateOverallRiskScore (complexityMetrics : ComplexityMetrics)
    (dependencyRisks : List DependencyRisk)
    (migrationBlockers : List MigrationBlocker) : ℚ :=
  let score : ℚ := 0
  let avgComplexity := complexityMetrics.overallComplexity.cyclomaticComplexity
  let score := score + min avgComplexity 40
  let criticalDeps := (dependencyRisks.filter (·.riskLevel = RiskLevel.critical)).length
  let highDeps := (dependencyRisks.filter (·.riskLevel = RiskLevel.high)).length
  let score := score + criticalDeps * 10 + highDeps * 5
  let blockers := (migrationBlockers.filter (·.severity = BlockerSeverity.blocker)).length
  let critical := (migrationBlockers.filter (·.severity = BlockerSeverity.critical)).length
  let score := score + blockers * 15 + critical * 10
  min score 100

/-!  ## JSON values, `JSON.stringify`, `JSON.parse`

JSON numbers are modelled as integers (the repair/extraction logic under
verification never depends on fractional syntax, and every numeric
literal these theorems feed the parser is an integer literal). -/

/-- JSON values. -/
inductive Json where
  | null
  | bool (b : Bool)
  | num (n : Int)
  | str (s : Str)
  | arr (elems : List Json)
  | obj (members : List (Str × Json))
deriving Repr

/-- Lowercase hexadecimal digit. -/
def hexDigit (k : Nat) : Char := "0123456789abcdef".data.getD k '0'

/-- `JSON.stringify` escaping of one string character: `\"`, `\\`, the
named control escapes `\b \t \n \f \r`, `\u00XX` for the remaining
control characters, everything else verbatim. -/
def escChar (c : Char) : Str :=
  if c = '"' then ['\\', '"']
  else if c = '\\' then ['\\', '\\']
  else if c = '\x08' then ['\\', 'b']
  else if c = '\t' then ['\\', 't']
  else if c = '\n' then ['\\', 'n']
  else if c = '\x0c' then ['\\', 'f']
  else if c = '\r' then ['\\', 'r']
  else if c.toNat < 32 then
    ['\\', 'u', '0', '0', hexDigit (c.toNat / 16), hexDigit (c.toNat % 16)]
  else [c]

/-- Escaped body of a JSON string literal. -/
def escBody (s : Str) : Str := (s.map escChar).flatten

/-- `JSON.stringify` of a string: quote, escaped body, quote. -/
def serializeString (s : Str) : Str := '"' :: escBody s ++ ['"']

/-- Decimal digits of a natural number, most significant first. -/
def natDigitsAux : Nat → Nat → Str
  | 0, _ => []
  | fuel + 1, n =>
    if n < 10 then [Char.ofNat (48 + n)]
    else natDigitsAux fuel (n / 10) ++ [Char.ofNat (48 + n % 10)]

/-- Decimal representation of a natural number. -/
def natDigits (n : Nat) : Str := natDigitsAux (n + 1) n

/-- Decimal representation of an integer (what `JSON.stringify` prints
for an integral number). -/
def intRepr (i : Int) : Str :=
  if i < 0 then '-' :: natDigits i.natAbs else natDigits i.natAbs

mutual

/-- `JSON.stringify` (compact form: no inserted whitespace). -/
def serialize : Json → Str
  | .null => "null".data
  | .bool true => "true".data
  | .bool false => "false".data
  | .num i => intRepr i
  | .str s => serializeString s
  | .arr elems => '[' :: serializeElems elems ++ [']']
  | .obj members => '{' :: serializeMembers members ++ ['}']

/-- Comma-separated serialization of array elements. -/
def serializeElems : List Json → Str
  | [] => []
  | [v] => serialize v
  | v :: rest => serialize v ++ ',' :: serializeElems rest

/-- Comma-separated serialization of object members. -/
def serializeMembers : List (Str × Json) → Str
  | [] => []
  | [(k, v)] => serializeString k ++ ':' :: serialize v
  | (k, v) :: rest => serializeString k ++ ':' :: serialize v ++ ',' :: serializeMembers rest

end

/-- JSON inter-token whitespace (`JSON.parse` accepts exactly these). -/
def isJsonWs (c : Char) : Bool :=
  c = ' ' || c = '\t' || c = '\n' || c = '\r'

/-- Skip inter-token whitespace. -/
def skipWs (s : Str) : Str := s.dropWhile isJsonWs

/-- Value of a hexadecimal digit character. -/
def parseHexDigit (c : Char) : Option Nat :=
  if '0' ≤ c ∧ c ≤ '9' then some (c.toNat - 48)
  else if 'a' ≤ c ∧ c ≤ 'f' then some (c.toNat - 97 + 10)
  else if 'A' ≤ c ∧ c ≤ 'F' then some (c.toNat - 65 + 10)
  else none

/-- Decode one escape sequence (the part after the backslash). -/
def parseEscapeChar : Str → Option (Char × Str)
  | [] => none
  | c :: r =>
    if c = '"' then some ('"', r)
    else if c = '\\' then some ('\\', r)
    else if c = '/' then some ('/', r)
    else if c = 'b' then some ('\x08', r)
    else if c = 'f' then some ('\x0c', r)
    else if c = 'n' then some ('\n', r)
    else if c = 'r' then some ('\r', r)
    else if c = 't' then some ('\t', r)
    else if c = 'u' then
      match r with
      | h1 :: h2 :: h3 :: h4 :: r2 =>
        match parseHexDigit h1, parseHexDigit h2, parseHexDigit h3, parseHexDigit h4 with
        | some a, some b, some c2, some d =>
          some (Char.ofNat (((a * 16 + b) * 16 + c2) * 16 + d), r2)
        | _, _, _, _ => none
      | _ => none
    else none

/-- Numeric value of a digit string. -/
def digitsToNat (ds : Str) : Nat :=
  ds.foldl (fun acc c => acc * 10 + (c.toNat - 48)) 0

mutual

/-- Fuel-indexed recursive-descent model of `JSON.parse` on one value.
Returns the parsed value and the unconsumed remainder.  Any fuel
exceeding the input length is sufficient (every recursive call strictly
shrinks the input). -/
def parseValue : Nat → Str → Option (Json × Str)
  | 0, _ => none
  | fuel + 1, s =>
    match skipWs s with
    | [] => none
    | c :: r =>
      if c = '{' then parseMembers fuel [] r
      else if c = '[' then parseElems fuel [] r
      else if c = '"' then (parseStringBody fuel r).map fun p => (Json.str p.1, p.2)
      else if c = 't' then
        if r.take 3 = ['r', 'u', 'e'] then some (Json.bool true, r.drop 3) else none
      else if c = 'f' then
        if r.take 4 = ['a', 'l', 's', 'e'] then some (Json.bool false, r.drop 4) else none
      else if c = 'n' then
        if r.take 3 = ['u', 'l', 'l'] then some (Json.null, r.drop 3) else none
      else if c = '-' then
        match r.takeWhile Char.isDigit with
        | [] => none
        | ds => some (Json.num (-(digitsToNat ds : Int)), r.dropWhile Char.isDigit)
      else if c.isDigit then
        some (Json.num (digitsToNat ((c :: r).takeWhile Char.isDigit)),
              (c :: r).dropWhile Char.isDigit)
      else none

/-- Object members after `{` or after a member-separating comma. -/
def parseMembers : Nat → List (Str × Json) → Str → Option (Json × Str)
  | 0, _, _ => none
  | fuel + 1, acc, s =>
    match skipWs s with
    | [] => none
    | c :: r =>
      if c = '}' then if acc.isEmpty then some (Json.obj [], r) else none
      else if c = '"' then
        match parseStringBody fuel r with
        | none => none
        | some (k, r2) =>
          match skipWs r2 with
          | ':' :: r3 =>
            match parseValue fuel r3 with
            | none => none
            | some (v, r4) =>
              match skipWs r4 with
              | ',' :: r5 => parseMembers fuel (acc ++ [(k, v)]) r5
              | '}' :: r5 => some (Json.obj (acc ++ [(k, v)]), r5)
              | _ => none
          | _ => none
      else none

/-- Array elements after `[` or after an element-separating comma. -/
def parseElems : Nat → List Json → Str → Option (Json × Str)
  | 0, _, _ => none
  | fuel + 1, acc, s =>
    match skipWs s with
    | [] => none
    | c :: r =>
      if c = ']' then if acc.isEmpty then some (Json.arr [], r) else none
      else
        match parseValue fuel (c :: r) with
        | none => none
        | some (v, r2) =>
          match skipWs r2 with
          | ',' :: r3 => parseElems fuel (acc ++ [v]) r3
          | ']' :: r3 => some (Json.arr (acc ++ [v]), r3)
          | _ => none

/-- String body after the opening quote, up to and including the closing
quote.  Control characters below `0x20` are rejected, as `JSON.parse`
rejects them. -/
def parseStringBody : Nat → Str → Option (Str × Str)
  | 0, _ => none
  | fuel + 1, s =>
    match s with
    | [] => none
    | c :: r =>
      if c = '"' then some ([], r)
      else if c = '\\' then
        match parseEscapeChar r with
        | none => none
        | some (d, r2) => (parseStringBody fuel r2).map fun p => (d :: p.1, p.2)
      else if 32 ≤ c.toNat then (parseStringBody fuel r).map fun p => (c :: p.1, p.2)
      else none

end

/-- Model of `JSON.parse` on a whole text: one value surrounded by
optional whitespace; anything else throws (modelled as `none`). -/
def jsonParse (s : Str) : Option Json :=
  match parseValue (2 * s.length + 2) s with
  | some (v, rest) => if skipWs rest = [] then some v else none
  | none => none

/-!  ## JSON-extraction strategies of `generateStructuredResponse`

The three regexes of the source are modelled by direct scanning
functions with the leftmost-match / lazy-quantifier semantics of the
JavaScript engine (`\s` modelled by its ASCII part `isWsChar`):

* `matchJsonFence`  models  a ```json fenced block:  the regex matches
  iff some occurrence of the 7-character opener is followed by a later
  triple backtick; the lazy group together with the two greedy `\s*`
  yields the inner text with its surrounding whitespace stripped,
  delimited by the first closing triple backtick.  If the first opener
  has no closer then no later opener has one either (every later opener
  starts with a triple backtick), so searching from the first opener is
  exact.
* `matchAnyFence`  models a generic fenced block the same way.
* `matchObjToEnd`  models the object regex: it matches from the first
  brace-open through the first brace-close that is followed only by
  whitespace until the end of the response. -/

/-- Content of the leftmost ```json fenced block. -/
def matchJsonFence (s : Str) : Option Str :=
  match indexOfSubstr "```json".data s with
  | none => none
  | some i =>
    let after := (s.drop (i + 7)).dropWhile isWsChar
    match indexOfSubstr "```".data after with
    | none => none
    | some q => some (dropWhileRight isWsChar (after.take q))

/-- Content of the leftmost generic fenced block. -/
def matchAnyFence (s : Str) : Option Str :=
  match indexOfSubstr "```".data s with
  | none => none
  | some i =>
    let after := (s.drop (i + 3)).dropWhile isWsChar
    match indexOfSubstr "```".data after with
    | none => none
    | some q => some (dropWhileRight isWsChar (after.take q))

/-- Helper for `matchObjToEnd`: span up to and including the first
closing brace that is followed only by whitespace. -/
def objSpanRec : Str → Option Str
  | [] => none
  | c :: r =>
    if c = '}' && r.all isWsChar then some [c]
    else (objSpanRec r).map (c :: ·)

/-- The brace-object-to-end-of-text match of the third strategy. -/
def matchObjToEnd (s : Str) : Option Str :=
  match indexOfChar '{' s with
  | none => none
  | some i => (objSpanRec (s.drop (i + 1))).map ('{' :: ·)

/-- The extraction strategies attempted by `generateStructuredResponse`,
for the instrumented trace. -/
inductive ExtractStep where
  | markdownJsonBlock
  | genericCodeBlock
  | jsonObjectMatch
  | wholeResponse
  | truncationRepair
deriving DecidableEq, Repr

/-- The single extract that the `try` block of the source parses: the
first strategy whose pattern matches selects the text handed to
`JSON.parse`; the later strategies are not consulted. -/
def selectExtract (response : Str) : Str × ExtractStep :=
  match matchJsonFence response with
  | some c => (c, ExtractStep.markdownJsonBlock)
  | none =>
    match matchAnyFence response with
    | some c => (c, ExtractStep.genericCodeBlock)
    | none =>
      match matchObjToEnd response with
      | some c => (c, ExtractStep.jsonObjectMatch)
      | none => (jsTrim response, ExtractStep.wholeResponse)

/-!  ## `repairTruncatedJson`  -/

/-- The running brace-count scan of `repairTruncatedJson`: index at
which the count first returns to zero (the source's `endIndex`,
relative to the scan start; the scan always starts at a brace-open
character). -/
def braceScanEndAux : Int → Nat → Str → Option Nat
  | _, _, [] => none
  | count, idx, c :: r =>
    let count' := count + (if c = '{' then 1 else 0) - (if c = '}' then 1 else 0)
    if count' = 0 then some idx else braceScanEndAux count' (idx + 1) r

/-- Brace-balance end position, starting with count zero. -/
def braceScanEnd (s : Str) : Option Nat := braceScanEndAux 0 0 s

/-- Net open-brace count of the `openBraces` loop. -/
def openBracesCount (s : Str) : Int := countCharZ '{' s - countCharZ '}' s

/-- Net open-bracket count of the `openBrackets` loop. -/
def openBracketsCount (s : Str) : Int := countCharZ '[' s - countCharZ ']' s

/-- The closing loops of both repair strategies: append `]` while
brackets remain open, then `}` while braces remain open. -/
def closeBalance (s : Str) : Str :=
  s ++ List.replicate (openBracketsCount s).toNat ']'
    ++ List.replicate (openBracesCount s).toNat '}'

/-- First repair strategy: if the text already ends with a quote return
it unchanged; otherwise cut at the last quote (when its index is
positive) and close the open brackets/braces. -/
def repairStrategy1 (jsonStr : Str) : Option Str :=
  if jsonStr.getLast? = some '"' then some jsonStr
  else
    match lastIndexOfChar '"' jsonStr with
    | some q => if 0 < q then some (closeBalance (jsonStr.take (q + 1))) else none
    | none => none

/-- The `/,\s*$/` removal of the second repair strategy. -/
def stripTrailingComma (s : Str) : Str :=
  let t := dropWhileRight isWsChar s
  if t.getLast? = some ',' then t.dropLast else s

/-- Second repair strategy: strip a trailing comma, close the open
brackets/braces. -/
def repairStrategy2 (jsonStr : Str) : Str :=
  closeBalance (stripTrailingComma jsonStr)

/-- Shallow embedding of `LLMClient.repairTruncatedJson`.  `JSON.parse`
exceptions are modelled by `none` from `jsonParse`; every `catch` of the
source returns `null`, so the model is a total function into
`Option Json`.  When the brace scan finds a balanced end position, the
source returns `JSON.parse` of that substring directly and a parse
failure there propagates to the outer catch (the two repair strategies
are *not* attempted in that case), which the first branch mirrors. -/
def repairTruncatedJson (response : Str) : Option Json :=
  let jsonStr := jsTrim response
  match indexOfChar '{' jsonStr with
  | none => none
  | some start =>
    let sub := jsonStr.drop start
    match braceScanEnd sub with
    | some e => jsonParse (sub.take (e + 1))
    | none =>
      match (repairStrategy1 sub).bind jsonParse with
      | some v => some v
      | none => jsonParse (repairStrategy2 sub)

/-!  ## `LLMClient.generateResponse` / `generateStructuredResponse`  -/

/-- The two provider slots. -/
inductive ProviderKind where
  | gemini
  | anthropic
deriving DecidableEq, Repr

/-- Client configuration and which provider clients initialized. -/
structure LLMClientState where
  provider : ProviderKind
  geminiAvailable : Bool
  anthropicAvailable : Bool
deriving DecidableEq, Repr

/-- Observable side effects of the retry loop. -/
inductive LLMEvent where
  | invoke (p : ProviderKind)
  | wait (ms : Nat)
deriving DecidableEq, Repr

/-- The provider one attempt of `generateResponse` invokes: the
configured provider when its client exists, otherwise any available
client, otherwise none (`throw new Error('No LLM provider available')`
inside the `try`). -/
def clientChoice (st : LLMClientState) : Option ProviderKind :=
  if st.provider = ProviderKind.gemini ∧ st.geminiAvailable then some ProviderKind.gemini
  else if st.provider = ProviderKind.anthropic ∧ st.anthropicAvailable then some ProviderKind.anthropic
  else if st.geminiAvailable then some ProviderKind.gemini
  else if st.anthropicAvailable then some ProviderKind.anthropic
  else none

/-- Retry loop of `generateResponse`.  `oracle n` is the outcome of the
`n`-th provider invocation of this call; the trace records invocations
and `setTimeout` back-off waits; the returned `Nat` is the total number
of provider invocations. -/
def generateResponseGo (st : LLMClientState) (oracle : Nat → Except Str Str) :
    Nat → Nat → Nat → Except Str Str × List LLMEvent × Nat
  | attempt, remaining, calls =>
    match clientChoice st with
    | none =>
      match remaining with
      | 0 => (Except.error "No LLM provider available".data, [], calls)
      | rem + 1 =>
        let (res, evs, calls') := generateResponseGo st oracle (attempt + 1) rem calls
        (res, LLMEvent.wait (1000 * (attempt + 1)) :: evs, calls')
    | some p =>
      match oracle calls with
      | Except.ok text => (Except.ok text, [LLMEvent.invoke p], calls + 1)
      | Except.error e =>
        match remaining with
        | 0 => (Except.error e, [LLMEvent.invoke p], calls + 1)
        | rem + 1 =>
          let (res, evs, calls') := generateResponseGo st oracle (attempt + 1) rem (calls + 1)
          (res, LLMEvent.invoke p :: LLMEvent.wait (1000 * (attempt + 1)) :: evs, calls')

/-- `generateResponse` with its default of 2 retries (3 total attempts). -/
def generateResponse (st : LLMClientState) (oracle : Nat → Except Str Str)
    (retries : Nat := 2) : Except Str Str × List LLMEvent × Nat :=
  generateResponseGo st oracle 0 retries 0

/-- Error message of the empty-response check (source line 153). -/
def emptyResponseMsg : Str :=
  "LLM returned empty response. This might be due to content filtering, rate limits, or input being too large.".data

/-- Error message when no strategy and no repair produced JSON.  The
source appends the message of the underlying `JSON.parse` exception,
which the model leaves out. -/
def parseFailedMsg : Str := "Failed to parse structured response".data

/-- The pure response-processing tail of `generateStructuredResponse`:
emptiness check, then the `try` block (first matching strategy, one
`JSON.parse`), then the repair fallback.  Also returns the list of
extraction steps attempted, for trace-based claims. -/
def processResponse (response : Str) : Except Str Json × List ExtractStep :=
  if jsTrim response = [] then
    (Except.error emptyResponseMsg, [])
  else
    let (text, step) := selectExtract response
    match jsonParse text with
    | some v => (Except.ok v, [step])
    | none =>
      match repairTruncatedJson response with
      | some v => (Except.ok v, [step, ExtractStep.truncationRepair])
      | none => (Except.error parseFailedMsg, [step, ExtractStep.truncationRepair])

/-- The prompt size ceiling (`maxPromptLength`, source line 131). -/
def maxPromptLength : Nat := 100000

/-- Error message of the prompt-size check (source line 134). -/
def promptTooLargeMsg (len : Nat) : Str :=
  ("Prompt is too large (" ++ Nat.repr len ++
     " characters). Try with a smaller repository or reduce the analysis scope.").data

/-- Error message wrapping a provider-level failure (source line 144). -/
def generationFailedMsg (e : Str) : Str :=
  "LLM generation failed: ".data ++ e ++
    ". This might be due to rate limits, content filtering, or service issues.".data

/-- Shallow embedding of `generateStructuredResponse`: prompt-size check
before any provider call, then the retry loop, then response
processing.  The schema and system prompt only contribute to the
provider messages and are not otherwise consumed. -/
def generateStructuredResponse (st : LLMClientState) (oracle : Nat → Except Str Str)
    (prompt _schema _systemPrompt : Str) :
    Except Str Json × List LLMEvent × List ExtractStep :=
  if prompt.length > maxPromptLength then
    (Except.error (promptTooLargeMsg prompt.length), [], [])
  else
    match generateResponse st oracle with
    | (Except.error e, evs, _) => (Except.error (generationFailedMsg e), evs, [])
    | (Except.ok response, evs, _) =>
      let (res, steps) := processResponse response
      (res, evs, steps)

/-!  ## Theorems: structured-response client (C3, C4, C8) and
rule-based fallbacks (C6, C7)  -/

theorem indexOfSubstr_isSome {needle hay : Str} (h : needle <:+: hay) :
    (indexOfSubstr needle hay).isSome = true := by
  induction hay with
  | nil =>
    have : needle = [] := by simpa using List.eq_nil_of_infix_nil h
    simp [indexOfSubstr, this]
  | cons x xs ih =>
    by_cases hp : needle.isPrefixOf (x :: xs)
    · simp [indexOfSubstr, hp]
    · have hinf : needle <:+: xs := by
        rcases (List.infix_cons_iff.1 h) with h1 | h2
        · exact absurd (List.isPrefixOf_iff_prefix.2 h1) (by simpa using hp)
        · exact h2
      simp [indexOfSubstr, hp, ih hinf]

theorem strContains_of_infix {needle hay : Str} (h : needle <:+: hay) :
    strContains hay needle = true := by
  simpa [strContains] using indexOfSubstr_isSome h

/-- Client configuration fixture: Gemini configured and initialized. -/
def stGemini : LLMClientState :=
  { provider := ProviderKind.gemini, geminiAvailable := true, anthropicAvailable := false }

/-- Provider oracle fixture that fails every invocation. -/
def oracleAlwaysFails : Nat → Except Str Str :=
  fun _ => Except.error "provider failure".data

/-- C3: a prompt longer than 100000 characters makes
`generateStructuredResponse` fail fast with the prompt-too-large error;
the event trace is empty, so no provider request (and no
`generateResponse` attempt) ever happens for that prompt. -/
theorem prompt_size_ceiling_fails_fast (st : LLMClientState)
    (oracle : Nat → Except Str Str) (prompt schema systemPrompt : Str)
    (h : prompt.length > 100000) :
    generateStructuredResponse st oracle prompt schema systemPrompt =
      (Except.error (promptTooLargeMsg prompt.length), [], []) ∧
    strContains (promptTooLargeMsg prompt.length) "too large".data = true := by
  constructor
  · simp [generateStructuredResponse, maxPromptLength, h]
  · apply strContains_of_infix
    have h1 : "too large".data <:+: "Prompt is too large (".data := by decide
    refine h1.trans ?_
    rw [promptTooLargeMsg, String.data_append]
    exact (List.prefix_append _ _).isInfix

/-- A concrete prompt of 100001 characters. -/
def oversizedPrompt : Str := List.replicate 100001 'a'

/-- The oversized prompt really has 100001 characters. -/
theorem oversizedPrompt_length : oversizedPrompt.length = 100001 := by
  rw [oversizedPrompt, List.length_replicate]

/-- Witness for C3: a concrete prompt of 100001 characters. -/
theorem prompt_size_ceiling_fails_fast_witness :
    oversizedPrompt.length > 100000 ∧
    generateStructuredResponse stGemini oracleAlwaysFails oversizedPrompt [] [] =
      (Except.error (promptTooLargeMsg oversizedPrompt.length), [], []) :=
  ⟨by rw [oversizedPrompt_length]; omega,
   (prompt_size_ceiling_fails_fast stGemini oracleAlwaysFails
      oversizedPrompt [] [] (by rw [oversizedPrompt_length]; omega)).1⟩

/-- C4: when the chosen provider client fails on every invocation,
`generateResponse` (with its default of 2 retries) makes exactly 3
attempts, emits exactly one provider invocation per attempt, waits
`1000ms × attempt-number` between consecutive attempts, and rethrows the
error of the last attempt. -/
theorem retry_loop_behavior (st : LLMClientState) (oracle : Nat → Except Str Str)
    (p : ProviderKind) (e : Nat → Str) (hp : clientChoice st = some p)
    (hfail : ∀ n, n < 3 → oracle n = Except.error (e n)) :
    generateResponse st oracle =
      (Except.error (e 2),
       [LLMEvent.invoke p, LLMEvent.wait 1000, LLMEvent.invoke p, LLMEvent.wait 2000,
        LLMEvent.invoke p], 3) := by
  simp [generateResponse, generateResponseGo, hp, hfail 0 (by omega), hfail 1 (by omega),
    hfail 2 (by omega)]

/-- Witness for C4: Gemini-only client with an always-failing oracle. -/
theorem retry_loop_behavior_witness :
    generateResponse stGemini oracleAlwaysFails =
      (Except.error "provider failure".data,
       [LLMEvent.invoke ProviderKind.gemini, LLMEvent.wait 1000,
        LLMEvent.invoke ProviderKind.gemini, LLMEvent.wait 2000,
        LLMEvent.invoke ProviderKind.gemini], 3) :=
  retry_loop_behavior stGemini oracleAlwaysFails ProviderKind.gemini
    (fun _ => "provider failure".data) (by decide) (fun _ _ => rfl)

/-- C8: a whitespace-only (or empty) provider response makes
`generateStructuredResponse`'s response processing fail with the
dedicated empty-response message — which contains the phrase
"empty response" and differs from the generic parse-failure message —
before any JSON-extraction strategy is attempted (the extraction-step
trace is empty). -/
theorem empty_response_distinct_error (response : Str) (h : jsTrim response = []) :
    processResponse response = (Except.error emptyResponseMsg, []) ∧
    strContains emptyResponseMsg "empty response".data = true ∧
    emptyResponseMsg ≠ parseFailedMsg := by
  refine ⟨by simp [processResponse, h], by decide, by decide⟩

/-- Witness for C8: a one-space response. -/
theorem empty_response_distinct_error_witness :
    processResponse [' '] = (Except.error emptyResponseMsg, []) ∧
    strContains emptyResponseMsg "empty response".data = true :=
  ⟨(empty_response_distinct_error [' '] (by decide)).1,
   (empty_response_distinct_error [' '] (by decide)).2.1⟩

/-- The MVC scenario fixture of the specification. -/
def mvcFixture : FileStructure :=
  { files := [
      { path := "src/controllers/UserController.js".data, name := "UserController.js".data,
        type := FileType.file },
      { path := "src/models/User.js".data, name := "User.js".data, type := FileType.file },
      { path := "src/views/user/index.ejs".data, name := "index.ejs".data,
        type := FileType.file } ] }

/-- One-file fixture containing a `service` path. -/
def layeredFixture : FileStructure :=
  { files := [
      { path := "src/services/UserService.js".data, name := "UserService.js".data,
        type := FileType.file } ] }

/-- One-file fixture containing a Dockerfile. -/
def microFixture : FileStructure :=
  { files := [
      { path := "Dockerfile".data, name := "Dockerfile".data, type := FileType.file } ] }

/-- One-file fixture containing a `module` path. -/
def componentFixture : FileStructure :=
  { files := [
      { path := "src/modules/auth.js".data, name := "auth.js".data,
        type := FileType.file } ] }

/-- C6: the rule-based pattern-detection fallback reports "MVC" when the
file list has paths containing "controller", "model" and "view";
"Layered" when some path contains "service"/"repository"/"dao";
"Microservices" when there is a Dockerfile/compose file or a nested
"service" directory; "Component-Based" when some path contains
"component"/"module"; and on the three-file MVC scenario it returns
exactly `["MVC"]`. -/
theorem pattern_detection_fallback_rules :
    (∀ fs : FileStructure,
      (fs.files.any fun f => strContains (lowerStr f.path) "controller".data) = true →
      (fs.files.any fun f => strContains (lowerStr f.path) "model".data) = true →
      (fs.files.any fun f => strContains (lowerStr f.path) "view".data) = true →
      "MVC".data ∈ analyzeStructuralPatterns fs) ∧
    (∀ fs : FileStructure,
      (fs.files.any fun f => strContains (lowerStr f.path) "service".data ||
        strContains (lowerStr f.path) "repository".data ||
        strContains (lowerStr f.path) "dao".data) = true →
      "Layered".data ∈ analyzeStructuralPatterns fs) ∧
    (∀ fs : FileStructure,
      (fs.files.any fun f => lowerStr f.name = "dockerfile".data ||
          lowerStr f.name = "docker-compose.yml".data) = true ∨
      (fs.files.any fun f => strContains (lowerStr f.path) "service".data &&
          decide (splitSlashLen f.path > 2)) = true →
      "Microservices".data ∈ analyzeStructuralPatterns fs) ∧
    (∀ fs : FileStructure,
      (fs.files.any fun f => strContains (lowerStr f.path) "component".data ||
        strContains (lowerStr f.path) "module".data) = true →
      "Component-Based".data ∈ analyzeStructuralPatterns fs) ∧
    analyzeStructuralPatterns mvcFixture = ["MVC".data] := by
  refine ⟨?_, ?_, ?_, ?_, by decide⟩
  · intro fs hc hm hv
    have hc' : (fs.files.any fun f => strContains (lowerStr f.path) "controller".data ||
        strContains (lowerStr f.path) "handlers".data) = true := by
      obtain ⟨f, hf, hp⟩ := List.any_eq_true.1 hc
      exact List.any_eq_true.2 ⟨f, hf, by simp [hp]⟩
    have hm' : (fs.files.any fun f => strContains (lowerStr f.path) "model".data ||
        strContains (lowerStr f.path) "entity".data) = true := by
      obtain ⟨f, hf, hp⟩ := List.any_eq_true.1 hm
      exact List.any_eq_true.2 ⟨f, hf, by simp [hp]⟩
    have hv' : (fs.files.any fun f => strContains (lowerStr f.path) "view".data ||
        strContains (lowerStr f.path) "template".data) = true := by
      obtain ⟨f, hf, hp⟩ := List.any_eq_true.1 hv
      exact List.any_eq_true.2 ⟨f, hf, by simp [hp]⟩
    simp [analyzeStructuralPatterns, hc', hm', hv']
  · intro fs hl
    simp [analyzeStructuralPatterns, hl]
  · intro fs h
    rcases h with hd | hm
    · simp [analyzeStructuralPatterns, hd]
    · simp [analyzeStructuralPatterns, hm]
  · intro fs hcomp
    simp [analyzeStructuralPatterns, hcomp]

/-- Witness for C6: the four fixtures exercise each rule. -/
theorem pattern_detection_fallback_rules_witness :
    "MVC".data ∈ analyzeStructuralPatterns mvcFixture ∧
    "Layered".data ∈ analyzeStructuralPatterns layeredFixture ∧
    "Microservices".data ∈ analyzeStructuralPatterns microFixture ∧
    "Component-Based".data ∈ analyzeStructuralPatterns componentFixture :=
  ⟨pattern_detection_fallback_rules.1 mvcFixture (by decide) (by decide) (by decide),
   pattern_detection_fallback_rules.2.1 layeredFixture (by decide),
   pattern_detection_fallback_rules.2.2.1 microFixture (Or.inl (by decide)),
   pattern_detection_fallback_rules.2.2.2.1 componentFixture (by decide)⟩

/-- Risk-scoring scenario fixtures: zero complexity, one critical
dependency risk, one blocker-severity migration blocker. -/
def zeroComplexityFixture : ComplexityMetrics :=
  { fileComplexity := []
    overallComplexity :=
      { totalLinesOfCode := 0, averageFileSize := 0, largestFiles := []
        cyclomaticComplexity := 0, maintainabilityIndex := 100 } }

/-- A critical dependency risk fixture. -/
def criticalDepFixture : DependencyRisk :=
  { name := "log4j".data, riskLevel := RiskLevel.critical }

/-- A blocker-severity migration blocker fixture. -/
def blockerFixture : MigrationBlocker :=
  { id := "dep-log4j".data, severity := BlockerSeverity.blocker }

/-- C7: the overall risk score equals
`min 100 (min avgComplexity 40 + 10·critDeps + 5·highDeps +
15·blockers + 10·criticalBlockers)` for all inputs, and the scenario
with one critical dependency risk, one blocker-severity blocker and
zero complexity scores `25`. -/
theorem overall_risk_score_formula :
    (∀ (cm : ComplexityMetrics) (deps : List DependencyRisk)
        (blockers : List MigrationBlocker),
      calculateOverallRiskScore cm deps blockers =
        min 100 (min cm.overallComplexity.cyclomaticComplexity 40
          + 10 * ((deps.filter (·.riskLevel = RiskLevel.critical)).length : ℚ)
          + 5 * ((deps.filter (·.riskLevel = RiskLevel.high)).length : ℚ)
          + 15 * ((blockers.filter (·.severity = BlockerSeverity.blocker)).length : ℚ)
          + 10 * ((blockers.filter (·.severity = BlockerSeverity.critical)).length : ℚ))) ∧
    calculateOverallRiskScore zeroComplexityFixture [criticalDepFixture] [blockerFixture] = 25 := by
  constructor
  · intro cm deps blockers
    rw [calculateOverallRiskScore, min_comm]
    ring_nf
  · simp [calculateOverallRiskScore, zeroComplexityFixture, criticalDepFixture, blockerFixture,
      List.filter_cons, List.filter_nil]
    norm_num

/-!  ## Pipeline orchestrators (C5)

The stage bodies perform LLM calls; the orchestration claims only
concern the sequencing in `analyze`, so the stages are taken as
parameters (state transformers) and the orchestrator is modelled
literally: run a stage, abort with a stage-naming error when the
returned state carries errors.  The second component of the result is
the list of stage names that were executed. -/

/-- `join(', ')` over accumulated stage errors. -/
def joinErrors (errors : List Str) : Str := List.intercalate ", ".data errors

/-- `ArchitectureInferenceState` (the analysis payload is abstract). -/
structure ArchitectureInferenceState (α : Type) where
  currentStep : Str := []
  progress : Nat := 0
  errors : List Str
  architectureAnalysis : Option α := none

/-- `CodeFlowState` (the analysis payload is abstract). -/
structure CodeFlowState (γ : Type) where
  currentStep : Str := []
  progress : Nat := 0
  errors : List Str
  codeFlowAnalysis : Option γ := none

/-- Shallow embedding of `ArchitectureInferenceAgent.analyze`: four
stages run sequentially, each gated on the previous stage having left
the error list empty. -/
def architectureAnalyze {α : Type}
    (detectArchitecturePatterns analyzeTechStack inferComponents generateArchitectureAnalysis :
      ArchitectureInferenceState α → ArchitectureInferenceState α)
    (init : ArchitectureInferenceState α) : Except Str α × List Str :=
  let s1 := detectArchitecturePatterns init
  if s1.errors ≠ [] then
    (Except.error ("Pattern detection failed: ".data ++ joinErrors s1.errors),
     ["detectArchitecturePatterns".data])
  else
    let s2 := analyzeTechStack s1
    if s2.errors ≠ [] then
      (Except.error ("Tech stack analysis failed: ".data ++ joinErrors s2.errors),
       ["detectArchitecturePatterns".data, "analyzeTechStack".data])
    else
      let s3 := inferComponents s2
      if s3.errors ≠ [] then
        (Except.error ("Component inference failed: ".data ++ joinErrors s3.errors),
         ["detectArchitecturePatterns".data, "analyzeTechStack".data, "inferComponents".data])
      else
        let s4 := generateArchitectureAnalysis s3
        if s4.errors ≠ [] then
          (Except.error ("Architecture analysis failed: ".data ++ joinErrors s4.errors),
           ["detectArchitecturePatterns".data, "analyzeTechStack".data, "inferComponents".data,
            "generateArchitectureAnalysis".data])
        else
          match s4.architectureAnalysis with
          | none =>
            (Except.error "Architecture analysis not completed".data,
             ["detectArchitecturePatterns".data, "analyzeTechStack".data, "inferComponents".data,
              "generateArchitectureAnalysis".data])
          | some r =>
            (Except.ok r,
             ["detectArchitecturePatterns".data, "analyzeTechStack".data, "inferComponents".data,
              "generateArchitectureAnalysis".data])

/-- Shallow embedding of `CodeFlowAgent.analyze`: six stages run
sequentially, each gated on the previous stage having left the error
list empty. -/
def codeFlowAnalyze {γ : Type}
    (analyzeEntryPoints analyzeExecutionPaths analyzeDependencies analyzeDataFlow
      generateRecommendations finalizeAnalysis : CodeFlowState γ → CodeFlowState γ)
    (init : CodeFlowState γ) : Except Str γ × List Str :=
  let s1 := analyzeEntryPoints init
  if s1.errors ≠ [] then
    (Except.error ("Entry points analysis failed: ".data ++ joinErrors s1.errors),
     ["analyzeEntryPoints".data])
  else
    let s2 := analyzeExecutionPaths s1
    if s2.errors ≠ [] then
      (Except.error ("Execution paths analysis failed: ".data ++ joinErrors s2.errors),
       ["analyzeEntryPoints".data, "analyzeExecutionPaths".data])
    else
      let s3 := analyzeDependencies s2
      if s3.errors ≠ [] then
        (Except.error ("Dependencies analysis failed: ".data ++ joinErrors s3.errors),
         ["analyzeEntryPoints".data, "analyzeExecutionPaths".data, "analyzeDependencies".data])
      else
        let s4 := analyzeDataFlow s3
        if s4.errors ≠ [] then
          (Except.error ("Data flow analysis failed: ".data ++ joinErrors s4.errors),
           ["analyzeEntryPoints".data, "analyzeExecutionPaths".data, "analyzeDependencies".data,
            "analyzeDataFlow".data])
        else
          let s5 := generateRecommendations s4
          if s5.errors ≠ [] then
            (Except.error ("Recommendations generation failed: ".data ++ joinErrors s5.errors),
             ["analyzeEntryPoints".data, "analyzeExecutionPaths".data, "analyzeDependencies".data,
              "analyzeDataFlow".data, "generateRecommendations".data])
          else
            let s6 := finalizeAnalysis s5
            if s6.errors ≠ [] then
              (Except.error ("Analysis finalization failed: ".data ++ joinErrors s6.errors),
               ["analyzeEntryPoints".data, "analyzeExecutionPaths".data, "analyzeDependencies".data,
                "analyzeDataFlow".data, "generateRecommendations".data, "finalizeAnalysis".data])
            else
              match s6.codeFlowAnalysis with
              | none =>
                (Except.error "Code flow analysis failed to produce results".data,
                 ["analyzeEntryPoints".data, "analyzeExecutionPaths".data, "analyzeDependencies".data,
                  "analyzeDataFlow".data, "generateRecommendations".data, "finalizeAnalysis".data])
              | some r =>
                (Except.ok r,
                 ["analyzeEntryPoints".data, "analyzeExecutionPaths".data, "analyzeDependencies".data,
                  "analyzeDataFlow".data, "generateRecommendations".data, "finalizeAnalysis".data])

/-- C5: in both pipeline orchestrators a stage runs only if the
previous stage left the error list empty; as soon as a stage's returned
state contains errors, `analyze` aborts with an error that names the
failed stage, and none of the remaining stages are executed (the
executed-stage list stops at the failing stage). -/
theorem orchestrators_abort_on_stage_errors :
    (∀ (α : Type) (f1 f2 f3 f4 : ArchitectureInferenceState α → ArchitectureInferenceState α)
        (init : ArchitectureInferenceState α),
      ((f1 init).errors ≠ [] →
        architectureAnalyze f1 f2 f3 f4 init =
          (Except.error ("Pattern detection failed: ".data ++ joinErrors (f1 init).errors),
           ["detectArchitecturePatterns".data])) ∧
      ((f1 init).errors = [] → (f2 (f1 init)).errors ≠ [] →
        architectureAnalyze f1 f2 f3 f4 init =
          (Except.error ("Tech stack analysis failed: ".data ++ joinErrors (f2 (f1 init)).errors),
           ["detectArchitecturePatterns".data, "analyzeTechStack".data])) ∧
      ((f1 init).errors = [] → (f2 (f1 init)).errors = [] →
       (f3 (f2 (f1 init))).errors ≠ [] →
        architectureAnalyze f1 f2 f3 f4 init =
          (Except.error ("Component inference failed: ".data ++
             joinErrors (f3 (f2 (f1 init))).errors),
           ["detectArchitecturePatterns".data, "analyzeTechStack".data,
            "inferComponents".data])) ∧
      ((f1 init).errors = [] → (f2 (f1 init)).errors = [] →
       (f3 (f2 (f1 init))).errors = [] → (f4 (f3 (f2 (f1 init)))).errors ≠ [] →
        architectureAnalyze f1 f2 f3 f4 init =
          (Except.error ("Architecture analysis failed: ".data ++
             joinErrors (f4 (f3 (f2 (f1 init)))).errors),
           ["detectArchitecturePatterns".data, "analyzeTechStack".data,
            "inferComponents".data, "generateArchitectureAnalysis".data]))) ∧
    (∀ (γ : Type) (g1 g2 g3 g4 g5 g6 : CodeFlowState γ → CodeFlowState γ)
        (init : CodeFlowState γ),
      ((g1 init).errors ≠ [] →
        codeFlowAnalyze g1 g2 g3 g4 g5 g6 init =
          (Except.error ("Entry points analysis failed: ".data ++ joinErrors (g1 init).errors),
           ["analyzeEntryPoints".data])) ∧
      ((g1 init).errors = [] → (g2 (g1 init)).errors ≠ [] →
        codeFlowAnalyze g1 g2 g3 g4 g5 g6 init =
          (Except.error ("Execution paths analysis failed: ".data ++
             joinErrors (g2 (g1 init)).errors),
           ["analyzeEntryPoints".data, "analyzeExecutionPaths".data])) ∧
      ((g1 init).errors = [] → (g2 (g1 init)).errors = [] →
       (g3 (g2 (g1 init))).errors ≠ [] →
        codeFlowAnalyze g1 g2 g3 g4 g5 g6 init =
          (Except.error ("Dependencies analysis failed: ".data ++
             joinErrors (g3 (g2 (g1 init))).errors),
           ["analyzeEntryPoints".data, "analyzeExecutionPaths".data,
            "analyzeDependencies".data])) ∧
      ((g1 init).errors = [] → (g2 (g1 init)).errors = [] →
       (g3 (g2 (g1 init))).errors = [] → (g4 (g3 (g2 (g1 init)))).errors ≠ [] →
        codeFlowAnalyze g1 g2 g3 g4 g5 g6 init =
          (Except.error ("Data flow analysis failed: ".data ++
             joinErrors (g4 (g3 (g2 (g1 init)))).errors),
           ["analyzeEntryPoints".data, "analyzeExecutionPaths".data,
            "analyzeDependencies".data, "analyzeDataFlow".data])) ∧
      ((g1 init).errors = [] → (g2 (g1 init)).errors = [] →
       (g3 (g2 (g1 init))).errors = [] → (g4 (g3 (g2 (g1 init)))).errors = [] →
       (g5 (g4 (g3 (g2 (g1 init))))).errors ≠ [] →
        codeFlowAnalyze g1 g2 g3 g4 g5 g6 init =
          (Except.error ("Recommendations generation failed: ".data ++
             joinErrors (g5 (g4 (g3 (g2 (g1 init))))).errors),
           ["analyzeEntryPoints".data, "analyzeExecutionPaths".data,
            "analyzeDependencies".data, "analyzeDataFlow".data,
            "generateRecommendations".data])) ∧
      ((g1 init).errors = [] → (g2 (g1 init)).errors = [] →
       (g3 (g2 (g1 init))).errors = [] → (g4 (g3 (g2 (g1 init)))).errors = [] →
       (g5 (g4 (g3 (g2 (g1 init))))).errors = [] →
       (g6 (g5 (g4 (g3 (g2 (g1 init)))))).errors ≠ [] →
        codeFlowAnalyze g1 g2 g3 g4 g5 g6 init =
          (Except.error ("Analysis finalization failed: ".data ++
             joinErrors (g6 (g5 (g4 (g3 (g2 (g1 init)))))).errors),
           ["analyzeEntryPoints".data, "analyzeExecutionPaths".data,
            "analyzeDependencies".data, "analyzeDataFlow".data,
            "generateRecommendations".data, "finalizeAnalysis".data]))) := by
  constructor
  · intro α f1 f2 f3 f4 init
    refine ⟨?_, ?_, ?_, ?_⟩
    · intro h1
      simp [architectureAnalyze, h1]
    · intro h1 h2
      simp [architectureAnalyze, h1, h2]
    · intro h1 h2 h3
      simp [architectureAnalyze, h1, h2, h3]
    · intro h1 h2 h3 h4
      simp [architectureAnalyze, h1, h2, h3, h4]
  · intro γ g1 g2 g3 g4 g5 g6 init
    refine ⟨?_, ?_, ?_, ?_, ?_, ?_⟩
    · intro h1
      simp [codeFlowAnalyze, h1]
    · intro h1 h2
      simp [codeFlowAnalyze, h1, h2]
    · intro h1 h2 h3
      simp [codeFlowAnalyze, h1, h2, h3]
    · intro h1 h2 h3 h4
      simp [codeFlowAnalyze, h1, h2, h3, h4]
    · intro h1 h2 h3 h4 h5
      simp [codeFlowAnalyze, h1, h2, h3, h4, h5]
    · intro h1 h2 h3 h4 h5 h6
      simp [codeFlowAnalyze, h1, h2, h3, h4, h5, h6]

/-- Stage fixture that records an error. -/
def failingArchStage : ArchitectureInferenceState Nat → ArchitectureInferenceState Nat :=
  fun s => { s with errors := ["stage exploded".data] }

/-- Stage fixture that succeeds and clears nothing. -/
def idArchStage : ArchitectureInferenceState Nat → ArchitectureInferenceState Nat := id

/-- Code-flow stage fixture that records an error. -/
def failingFlowStage : CodeFlowState Nat → CodeFlowState Nat :=
  fun s => { s with errors := ["stage exploded".data] }

/-- Code-flow stage fixture that succeeds. -/
def idFlowStage : CodeFlowState Nat → CodeFlowState Nat := id

/-- Witness for C5: a second-stage failure aborts the architecture
pipeline after exactly two stages, and a first-stage failure aborts the
code-flow pipeline after exactly one stage. -/
theorem orchestrators_abort_on_stage_errors_witness :
    architectureAnalyze idArchStage failingArchStage idArchStage idArchStage
        { errors := [] } =
      (Except.error ("Tech stack analysis failed: ".data ++
         joinErrors ["stage exploded".data]),
       ["detectArchitecturePatterns".data, "analyzeTechStack".data]) ∧
    codeFlowAnalyze failingFlowStage idFlowStage idFlowStage idFlowStage idFlowStage
        idFlowStage { errors := [] } =
      (Except.error ("Entry points analysis failed: ".data ++
         joinErrors ["stage exploded".data]),
       ["analyzeEntryPoints".data]) :=
  ⟨((orchestrators_abort_on_stage_errors.1 Nat idArchStage failingArchStage idArchStage
      idArchStage { errors := [] }).2.1 rfl (by decide)),
   ((orchestrators_abort_on_stage_errors.2 Nat failingFlowStage idFlowStage idFlowStage
      idFlowStage idFlowStage idFlowStage { errors := [] }).1 (by decide))⟩

/-!  ## Run coordinator `performAnalysis` (C9)

The four pipelines are taken as parameters (`Except`-valued, with the
data dependencies of the source call sites); the in-memory record of
`analysisResults` is threaded explicitly, and the list of pipelines
that were invoked is returned alongside the final record. -/

/-- `AnalysisResult.status`. -/
inductive RunStatus where
  | pending
  | running
  | completed
  | failed
deriving DecidableEq, Repr

/-- The four pipelines, in dependency order. -/
inductive PipelineTag where
  | repo
  | arch
  | flow
  | risk
deriving DecidableEq, Repr

/-- The in-memory run record mutated by `performAnalysis` (payloads
abstract; `completedAt` timestamps are not modelled). -/
structure AnalysisRecord (A B C D : Type) where
  status : RunStatus
  progress : Nat := 0
  currentStep : Str := []
  error : Option Str := none
  repositoryAnalysis : Option A := none
  architectureAnalysis : Option B := none
  codeFlowAnalysis : Option C := none
  riskAssessment : Option D := none

/-- Shallow embedding of `performAnalysis` (`src/api/index.ts`): the
pipelines run in the fixed order repository analysis → architecture
inference → code flow → risk assessment; the record is updated after
each pipeline completes; a throw from any pipeline is caught, the
record is marked `failed` with that error's message, and no later
pipeline is attempted. -/
def performAnalysis {A B C D : Type}
    (runGithubAnalyzer : Except Str A)
    (runArchitectureInference : A → Except Str B)
    (runCodeFlowAgent : A → B → Except Str C)
    (runRiskAssessmentAgent : A → B → C → Except Str D)
    (init : AnalysisRecord A B C D) :
    AnalysisRecord A B C D × List PipelineTag :=
  let r0 := { init with status := RunStatus.running, progress := 0,
                        currentStep := "Starting GitHub analysis".data }
  let r1 := { r0 with currentStep := "Analyzing GitHub repository".data, progress := 10 }
  match runGithubAnalyzer with
  | Except.error e =>
    ({ r1 with status := RunStatus.failed, error := some e }, [PipelineTag.repo])
  | Except.ok repositoryAnalysis =>
    let r2 := { r1 with progress := 50, currentStep := "Repository analysis completed".data,
                        repositoryAnalysis := some repositoryAnalysis }
    let r3 := { r2 with currentStep := "Inferring architecture patterns".data, progress := 60 }
    match runArchitectureInference repositoryAnalysis with
    | Except.error e =>
      ({ r3 with status := RunStatus.failed, error := some e },
       [PipelineTag.repo, PipelineTag.arch])
    | Except.ok architectureAnalysis =>
      let r4 := { r3 with progress := 70,
                          currentStep := "Architecture inference completed".data,
                          architectureAnalysis := some architectureAnalysis }
      let r5 := { r4 with currentStep := "Analyzing code flow and dependencies".data,
                          progress := 75 }
      match runCodeFlowAgent repositoryAnalysis architectureAnalysis with
      | Except.error e =>
        ({ r5 with status := RunStatus.failed, error := some e },
         [PipelineTag.repo, PipelineTag.arch, PipelineTag.flow])
      | Except.ok codeFlowAnalysis =>
        let r6 := { r5 with progress := 80,
                            currentStep := "Code flow analysis completed".data,
                            codeFlowAnalysis := some codeFlowAnalysis }
        let r7 := { r6 with currentStep := "Assessing migration risks and vulnerabilities".data,
                            progress := 90 }
        match runRiskAssessmentAgent repositoryAnalysis architectureAnalysis codeFlowAnalysis with
        | Except.error e =>
          ({ r7 with status := RunStatus.failed, error := some e },
           [PipelineTag.repo, PipelineTag.arch, PipelineTag.flow, PipelineTag.risk])
        | Except.ok riskAssessment =>
          ({ r7 with progress := 100, currentStep := "Analysis completed".data,
                     riskAssessment := some riskAssessment, status := RunStatus.completed },
           [PipelineTag.repo, PipelineTag.arch, PipelineTag.flow, PipelineTag.risk])

/-- C9: the run coordinator runs the four pipelines in the fixed order
repo → architecture → code flow → risk; when a pipeline throws, the
record is set to `failed` with that error's message, the outputs of the
pipelines that had already completed are retained in the record (it is
updated after each pipeline completes), and no later pipeline is
attempted. -/
theorem run_coordinator_failure_policy (A B C D : Type)
    (gh : Except Str A) (ar : A → Except Str B) (cf : A → B → Except Str C)
    (rk : A → B → C → Except Str D) (init : AnalysisRecord A B C D)
    (hinitError : init.error = none)
    (hinitFlow : init.codeFlowAnalysis = none)
    (hinitRisk : init.riskAssessment = none) :
    (∀ e, gh = Except.error e →
      (performAnalysis gh ar cf rk init).2 = [PipelineTag.repo] ∧
      (performAnalysis gh ar cf rk init).1.status = RunStatus.failed ∧
      (performAnalysis gh ar cf rk init).1.error = some e) ∧
    (∀ a e, gh = Except.ok a → ar a = Except.error e →
      (performAnalysis gh ar cf rk init).2 = [PipelineTag.repo, PipelineTag.arch] ∧
      (performAnalysis gh ar cf rk init).1.status = RunStatus.failed ∧
      (performAnalysis gh ar cf rk init).1.error = some e ∧
      (performAnalysis gh ar cf rk init).1.repositoryAnalysis = some a ∧
      (performAnalysis gh ar cf rk init).1.codeFlowAnalysis = none ∧
      (performAnalysis gh ar cf rk init).1.riskAssessment = none) ∧
    (∀ a b e, gh = Except.ok a → ar a = Except.ok b → cf a b = Except.error e →
      (performAnalysis gh ar cf rk init).2 =
        [PipelineTag.repo, PipelineTag.arch, PipelineTag.flow] ∧
      (performAnalysis gh ar cf rk init).1.status = RunStatus.failed ∧
      (performAnalysis gh ar cf rk init).1.error = some e ∧
      (performAnalysis gh ar cf rk init).1.repositoryAnalysis = some a ∧
      (performAnalysis gh ar cf rk init).1.architectureAnalysis = some b ∧
      (performAnalysis gh ar cf rk init).1.riskAssessment = none) ∧
    (∀ a b c e, gh = Except.ok a → ar a = Except.ok b → cf a b = Except.ok c →
        rk a b c = Except.error e →
      (performAnalysis gh ar cf rk init).2 =
        [PipelineTag.repo, PipelineTag.arch, PipelineTag.flow, PipelineTag.risk] ∧
      (performAnalysis gh ar cf rk init).1.status = RunStatus.failed ∧
      (performAnalysis gh ar cf rk init).1.error = some e ∧
      (performAnalysis gh ar cf rk init).1.codeFlowAnalysis = some c) ∧
    (∀ a b c d, gh = Except.ok a → ar a = Except.ok b → cf a b = Except.ok c →
        rk a b c = Except.ok d →
      (performAnalysis gh ar cf rk init).2 =
        [PipelineTag.repo, PipelineTag.arch, PipelineTag.flow, PipelineTag.risk] ∧
      (performAnalysis gh ar cf rk init).1.status = RunStatus.completed ∧
      (performAnalysis gh ar cf rk init).1.error = none ∧
      (performAnalysis gh ar cf rk init).1.riskAssessment = some d) := by
  refine ⟨?_, ?_, ?_, ?_, ?_⟩
  · intro e hgh
    simp [performAnalysis, hgh]
  · intro a e hgh har
    simp [performAnalysis, hgh, har, hinitFlow, hinitRisk]
  · intro a b e hgh har hcf
    simp [performAnalysis, hgh, har, hcf, hinitRisk]
  · intro a b c e hgh har hcf hrk
    simp [performAnalysis, hgh, har, hcf, hrk]
  · intro a b c d hgh har hcf hrk
    simp [performAnalysis, hgh, har, hcf, hrk, hinitError]

/-- Fresh pending record, as created by the analyze route before
`performAnalysis` is started. -/
def freshRecord : AnalysisRecord Nat Nat Nat Nat := { status := RunStatus.pending }

/-- Witness for C9: with a code-flow pipeline that throws, the record
ends `failed` with that message, earlier outputs retained, and the risk
pipeline is never attempted. -/
theorem run_coordinator_failure_policy_witness :
    (performAnalysis (Except.ok 1) (fun _ => Except.ok 2)
        (fun _ _ => Except.error "flow blew up".data)
        (fun _ _ _ => Except.ok 4) freshRecord).2 =
      [PipelineTag.repo, PipelineTag.arch, PipelineTag.flow] ∧
    (performAnalysis (Except.ok 1) (fun _ => Except.ok 2)
        (fun _ _ => Except.error "flow blew up".data)
        (fun _ _ _ => Except.ok 4) freshRecord).1.status = RunStatus.failed ∧
    (performAnalysis (Except.ok 1) (fun _ => Except.ok 2)
        (fun _ _ => Except.error "flow blew up".data)
        (fun _ _ _ => Except.ok 4) freshRecord).1.error = some "flow blew up".data := by
  have h := (run_coordinator_failure_policy Nat Nat Nat Nat (Except.ok 1)
    (fun _ => Except.ok 2) (fun _ _ => Except.error "flow blew up".data)
    (fun _ _ _ => Except.ok 4) freshRecord rfl rfl rfl).2.2.1 1 2 "flow blew up".data
    rfl rfl rfl
  exact ⟨h.1, h.2.1, h.2.2.1⟩

/-!  ## `calculateFileComplexity` and the complexity ranking (C10)

The keyword counts use the `\b`-bounded global regex matches of the
source; the scanners below implement the leftmost, non-overlapping,
alternation-ordered matching of the JavaScript engine, with `\b`
boundaries decided by word-character transitions (word characters are
`[A-Za-z0-9_]`). -/

/-- JS regex word character. -/
def isWordChar (c : Char) : Bool := c.isAlphanum || c = '_'

/-- Word/non-word transition at a position (`\b` before a match; the
string edge counts as non-word). -/
def boundaryBeforeOk (prev : Option Char) (first : Char) : Bool :=
  (match prev with | some p => isWordChar p | none => false) != isWordChar first

/-- Word/non-word transition after a match (`\b` after a match). -/
def boundaryAfterOk (lastc : Char) (next : Option Char) : Bool :=
  isWordChar lastc != (match next with | some n => isWordChar n | none => false)

/-- First alternative matching at this position with both boundaries;
returns the last matched character and the remainder. -/
def tryAltsB : List Str → Option Char → Str → Option (Char × Str)
  | [], _, _ => none
  | kw :: rest, prev, s =>
    match kw with
    | [] => tryAltsB rest prev s
    | k0 :: ktl =>
      if (k0 :: ktl).isPrefixOf s && boundaryBeforeOk prev k0 &&
          boundaryAfterOk ((k0 :: ktl).getLastD k0) (s.drop (k0 :: ktl).length).head? then
        some ((k0 :: ktl).getLastD k0, s.drop (k0 :: ktl).length)
      else tryAltsB rest prev s

/-- Fuel-driven global scan counting `\b`-bounded matches. -/
def scanCountB (alts : List Str) : Nat → Option Char → Str → Nat
  | 0, _, _ => 0
  | fuel + 1, prev, s =>
    match s with
    | [] => 0
    | c :: r =>
      match tryAltsB alts prev (c :: r) with
      | some (lastc, rem) => 1 + scanCountB alts fuel (some lastc) rem
      | none => scanCountB alts fuel (some c) r

/-- Number of global matches of a `\b…\b` alternation regex. -/
def countMatchesB (alts : List Str) (s : Str) : Nat := scanCountB alts s.length none s

/-- First alternative that is a prefix (no boundaries). -/
def tryAltsP : List Str → Str → Option Str
  | [], _ => none
  | kw :: rest, s =>
    if kw ≠ [] && kw.isPrefixOf s then some (s.drop kw.length) else tryAltsP rest s

/-- Fuel-driven global scan counting plain matches. -/
def scanCountP (alts : List Str) : Nat → Str → Nat
  | 0, _ => 0
  | fuel + 1, s =>
    match s with
    | [] => 0
    | c :: r =>
      match tryAltsP alts (c :: r) with
      | some rem => 1 + scanCountP alts fuel rem
      | none => scanCountP alts fuel r

/-- Number of global matches of a plain alternation regex. -/
def countMatchesP (alts : List Str) (s : Str) : Nat := scanCountP alts s.length s

/-- The control-flow alternatives of `calculateSimpleComplexity`, in
regex order. -/
def conditionalAlts : List Str :=
  ["if".data, "else".data, "while".data, "for".data, "switch".data, "case".data,
   "catch".data, "&&".data, "||".data]

/-- The function/class alternatives of `calculateSimpleComplexity`. -/
def functionAlts : List Str :=
  ["function".data, "def".data, "class".data, "method".data, "public".data, "private".data]

/-- The debug-statement alternatives of `identifyFileIssues`. -/
def debugAlts : List Str :=
  ["console.log".data, "System.out.print".data, "print(".data]

/-- `content.split('\n').length`. -/
def linesOfContent (content : Str) : Nat := content.count '\n' + 1

/-- Shallow embedding of `calculateSimpleComplexity`: conditionals +
function keywords + a base of 1, capped at 100. -/
def calculateSimpleComplexity (content : Str) : Nat :=
  min (countMatchesB conditionalAlts content + countMatchesB functionAlts content + 1) 100

/-- Shallow embedding of `calculateMaintainabilityIndex`; `log` stands
for the floating-point `Math.log`. -/
def calculateMaintainabilityIndex (log : Nat → ℚ) (loc complexity : Nat) : ℚ :=
  max 0 (100 - log loc * 2 - complexity * 3)

/-- Shallow embedding of `determineFileRiskLevel`. -/
def determineFileRiskLevel (loc complexity : Nat) : RiskLevel :=
  if loc > 1000 ∨ complexity > 20 then RiskLevel.high
  else if loc > 500 ∨ complexity > 10 then RiskLevel.medium
  else RiskLevel.low

/-- JS truthiness-guarded size check `file.size && file.size > 10000`. -/
def sizeLarge : Option Nat → Bool
  | some n => decide (n > 10000)
  | none => false

/-- Shallow embedding of `identifyFileIssues`. -/
def identifyFileIssues (f : FileInfo) (content : Str) : List Str :=
  (if sizeLarge f.size then
    ["Large file size".data] else []) ++
  (if linesOfContent content > 500 then ["High line count".data] else []) ++
  (if countMatchesB ["todo".data] (lowerStr content) > 5 then
    ["Many TODO comments".data] else []) ++
  (if countMatchesB ["fixme".data] (lowerStr content) > 0 then
    ["Contains FIXME comments".data] else []) ++
  (if countMatchesP debugAlts content > 5 then ["Many debug statements".data] else [])

/-- JS truthiness of `f.content` (absent or empty string is falsy). -/
def contentTruthy : Option Str → Bool
  | some s => !s.isEmpty
  | none => false

/-- The metric record built for one file inside `calculateFileComplexity`. -/
def fileMetricOf (log : Nat → ℚ) (f : FileInfo) : FileComplexityMetric :=
  let content := f.content.getD []
  let linesOfCode := linesOfContent content
  let complexity := calculateSimpleComplexity content
  { file := f.path
    linesOfCode := linesOfCode
    complexity := complexity
    maintainabilityIndex := calculateMaintainabilityIndex log linesOfCode complexity
    riskLevel := determineFileRiskLevel linesOfCode complexity
    issues := identifyFileIssues f content }

/-- Stable insertion step of the `(a, b) => b.complexity - a.complexity`
comparator sort. -/
def insertByComplexity (x : FileComplexityMetric) :
    List FileComplexityMetric → List FileComplexityMetric
  | [] => [x]
  | y :: ys =>
    if y.complexity < x.complexity then x :: y :: ys else y :: insertByComplexity x ys

/-- The descending-complexity sort of `calculateFileComplexity`. -/
def sortByComplexityDesc (l : List FileComplexityMetric) : List FileComplexityMetric :=
  l.foldr insertByComplexity []

/-- Shallow embedding of `RiskAssessmentAgent.calculateFileComplexity`:
keep files with truthy content and type `file`, build the metric per
file, sort by complexity in non-increasing order. -/
def calculateFileComplexity (log : Nat → ℚ) (files : List FileInfo) :
    List FileComplexityMetric :=
  sortByComplexityDesc
    ((files.filter fun f => contentTruthy f.content && f.type = FileType.file).map
      (fileMetricOf log))

/-- The `largestFiles` field built inside `RiskAssessmentAgent.analyze`:
`fileComplexityMetrics.slice(0, 5).map(f => f.file)`. -/
def largestFilesOf (ms : List FileComplexityMetric) : List Str := (ms.take 5).map (·.file)

theorem insertByComplexity_perm (x : FileComplexityMetric) (l : List FileComplexityMetric) :
    List.Perm (insertByComplexity x l) (x :: l) := by
  induction l with
  | nil => rfl
  | cons y ys ih =>
    rw [insertByComplexity]
    split
    · rfl
    · exact (ih.cons y).trans (List.Perm.swap x y ys)

theorem sortByComplexityDesc_perm (l : List FileComplexityMetric) :
    List.Perm (sortByComplexityDesc l) l := by
  induction l with
  | nil => rfl
  | cons x xs ih =>
    exact (insertByComplexity_perm x (sortByComplexityDesc xs)).trans (ih.cons x)

theorem insertByComplexity_pairwise (x : FileComplexityMetric) (l : List FileComplexityMetric)
    (h : l.Pairwise fun a b => b.complexity ≤ a.complexity) :
    (insertByComplexity x l).Pairwise fun a b => b.complexity ≤ a.complexity := by
  induction l with
  | nil => simp [insertByComplexity]
  | cons y ys ih =>
    rw [insertByComplexity]
    rcases List.pairwise_cons.1 h with ⟨hy, hys⟩
    split
    · rename_i hlt
      refine List.pairwise_cons.2 ⟨?_, h⟩
      intro b hb
      rcases List.mem_cons.1 hb with hb' | hb'
      · subst hb'; omega
      · exact le_trans (hy b hb') (by omega)
    · rename_i hge
      refine List.pairwise_cons.2 ⟨?_, ih hys⟩
      intro b hb
      have hmem := (insertByComplexity_perm x ys).mem_iff.1 hb
      rcases List.mem_cons.1 hmem with hb' | hb'
      · subst hb'; omega
      · exact hy b hb'

theorem sortByComplexityDesc_pairwise (l : List FileComplexityMetric) :
    (sortByComplexityDesc l).Pairwise fun a b => b.complexity ≤ a.complexity := by
  induction l with
  | nil => simp [sortByComplexityDesc]
  | cons x xs ih => exact insertByComplexity_pairwise x _ ih

/-- Many-line fixture with no keywords: three lines, complexity 1. -/
def manyLineFile : FileInfo :=
  { path := "src/long.txt".data, name := "long.txt".data, type := FileType.file
    size := some 20000, content := some ['a', '\n', 'b', '\n', 'c'] }

/-- One-line fixture containing an `if`: complexity 2. -/
def branchyFile : FileInfo :=
  { path := "src/branchy.js".data, name := "branchy.js".data, type := FileType.file
    size := some 4, content := some "if x".data }

/-- C10: `calculateFileComplexity` yields one metric per file of type
`file` with (truthy) content — every other file is excluded — sorted in
non-increasing order of the computed complexity; `largestFiles` is the
first five entries of that ranking, so it names the five
highest-complexity files, which need not be the files with the most
lines or bytes (witnessed by the two fixtures: the three-line file has
more lines and a larger size, yet ranks below the one-line file with an
`if`). -/
theorem file_complexity_ranking (log : Nat → ℚ) (files : List FileInfo) :
    List.Perm (calculateFileComplexity log files)
      ((files.filter fun f => contentTruthy f.content && f.type = FileType.file).map
        (fileMetricOf log)) ∧
    (calculateFileComplexity log files).Pairwise
      (fun a b => b.complexity ≤ a.complexity) ∧
    largestFilesOf (calculateFileComplexity log files) =
      ((calculateFileComplexity log files).take 5).map (·.file) ∧
    (∀ a ∈ (calculateFileComplexity log files).take 5,
     ∀ b ∈ (calculateFileComplexity log files).drop 5, b.complexity ≤ a.complexity) ∧
    largestFilesOf (calculateFileComplexity log [manyLineFile, branchyFile]) =
      ["src/branchy.js".data, "src/long.txt".data] ∧
    (fileMetricOf log manyLineFile).linesOfCode > (fileMetricOf log branchyFile).linesOfCode := by
  refine ⟨sortByComplexityDesc_perm _, sortByComplexityDesc_pairwise _, rfl, ?_, ?_, ?_⟩
  · have h := sortByComplexityDesc_pairwise
      ((files.filter fun f => contentTruthy f.content && f.type = FileType.file).map
        (fileMetricOf log))
    have h2 : (((calculateFileComplexity log files).take 5) ++
        ((calculateFileComplexity log files).drop 5)).Pairwise
        (fun a b => b.complexity ≤ a.complexity) := by
      rw [List.take_append_drop]; exact h
    exact (List.pairwise_append.1 h2).2.2
  · rfl
  · show linesOfContent ['a', '\n', 'b', '\n', 'c'] > linesOfContent "if x".data
    decide

/-!  ## Extraction-strategy ordering (C2)  -/

/-- Modelled from the spec: "the first top-level `\x7b...\x7d` object"
of the claim's third strategy — the first brace-open from which the
brace scan balances, together with that balanced span.  This follows
the claim's wording and deliberately differs from the source's
object-to-end-of-text regex; it is used only to compare the claim
against the code. -/
def specFirstTopLevelObj : Str → Option Str
  | [] => none
  | c :: r =>
    if c = '{' then
      match braceScanEnd (c :: r) with
      | some e => some ((c :: r).take (e + 1))
      | none => specFirstTopLevelObj r
    else specFirstTopLevelObj r

/-- Modelled from the spec: the claim's reading of the extraction —
try the four strategies in order and return the result of the *first
strategy whose extracted text parses as valid JSON*, falling through to
the next strategy when a strategy's text fails to parse.  The source
does not do this (it parses only the first strategy whose pattern
matches); this definition exists to exhibit the difference. -/
def specOrderedStrategyExtraction (response : Str) : Option Json :=
  match (matchJsonFence response).bind jsonParse with
  | some v => some v
  | none =>
    match (matchAnyFence response).bind jsonParse with
    | some v => some v
    | none =>
      match (specFirstTopLevelObj response).bind jsonParse with
      | some v => some v
      | none => jsonParse (jsTrim response)

/-- Response with a ```json fenced block holding unparseable text and a
bare, valid object afterwards. -/
def fencedFallthroughResponse : Str := "```json\n\x7bbad\n``` \x7b\"a\":1\x7d".data

/-- Response with a parseable ```json fenced block and a bare object
elsewhere. -/
def fencedPrecedenceResponse : Str :=
  "```json\n \x7b\"a\": 1\x7d \n``` \x7b\"b\":2\x7d".data

theorem infix_of_indexOfSubstr {needle hay : Str} {i : Nat}
    (h : indexOfSubstr needle hay = some i) : needle <:+: hay := by
  induction hay generalizing i with
  | nil =>
    rw [indexOfSubstr] at h
    by_cases hn : needle = ([] : Str)
    · simp [hn]
    · simp [hn] at h
  | cons x xs ih =>
    rw [indexOfSubstr] at h
    by_cases hp : needle.isPrefixOf (x :: xs)
    · exact (List.isPrefixOf_iff_prefix.1 hp).isInfix
    · simp only [hp, if_neg] at h
      rcases Option.map_eq_some'.1 h with ⟨j, hj, _⟩
      exact (ih hj).trans (List.suffix_cons x xs).isInfix

theorem jsTrim_ne_nil {s : Str} {c : Char} (hc : c ∈ s) (hw : isWsChar c = false) :
    jsTrim s ≠ [] := by
  intro hnil
  rw [jsTrim, dropWhileRight] at hnil
  have h2 := List.reverse_eq_nil_iff.1 hnil
  have h3 := List.dropWhile_eq_nil_iff.1 h2
  have h4 : ∀ a ∈ s.dropWhile isWsChar, isWsChar a = true := fun a ha =>
    h3 a (List.mem_reverse.2 ha)
  have h5 : c ∈ s.takeWhile isWsChar ∨ c ∈ s.dropWhile isWsChar := by
    rw [← List.mem_append, List.takeWhile_append_dropWhile]
    exact hc
  rcases h5 with h5 | h5
  · exact absurd (List.mem_takeWhile_imp h5) (by simp [hw])
  · exact absurd (h4 c h5) (by simp [hw])

theorem matchJsonFence_trim_ne_nil {response c : Str}
    (hm : matchJsonFence response = some c) : jsTrim response ≠ [] := by
  have hidx : ∃ i, indexOfSubstr "```json".data response = some i := by
    cases h : indexOfSubstr "```json".data response with
    | none => rw [matchJsonFence, h] at hm; simp at hm
    | some i => exact ⟨i, rfl⟩
  rcases hidx with ⟨i, hi⟩
  have hinf := infix_of_indexOfSubstr hi
  have hmem : '`' ∈ response := hinf.subset (by decide)
  exact jsTrim_ne_nil hmem (by decide)

/-- Counterexample to C2 as stated: on `fencedFallthroughResponse`, the
claim's ordered fall-through extraction returns the bare object
`\x7b"a":1\x7d` (the fenced block's text does not parse, the third
strategy's text does), but the code throws a parse error instead — all
strategies live in one `try`, so a parse failure of the selected
extract skips the remaining strategies and goes to truncation repair,
which also fails here. -/
theorem ordered_fallthrough_counterexample :
    specOrderedStrategyExtraction fencedFallthroughResponse =
      some (Json.obj [("a".data, Json.num 1)]) ∧
    (processResponse fencedFallthroughResponse).1 = Except.error parseFailedMsg :=
  ⟨rfl, rfl⟩

/-- C2 (amended): `generateStructuredResponse` selects the extract of
the *first strategy whose pattern matches* — ```json fence, then any
fence, then brace-object-to-end, then the whole trimmed response — and
parses only that extract.  When a ```json fenced block is present, its
content is what gets parsed (so the fenced block takes precedence over
any bare object), and when that parse succeeds its value is returned;
when the parse of the selected extract fails, later strategies are not
consulted and the client proceeds to truncation repair on the full
response. -/
theorem fenced_block_precedence :
    (∀ (response c : Str) (v : Json), matchJsonFence response = some c →
        jsonParse c = some v → (processResponse response).1 = Except.ok v) ∧
    (∀ (response c : Str), matchJsonFence response = some c → jsonParse c = none →
        (processResponse response).1 = (match repairTruncatedJson response with
          | some v => Except.ok v
          | none => Except.error parseFailedMsg)) := by
  constructor
  · intro response c v hm hv
    have hne := matchJsonFence_trim_ne_nil hm
    simp [processResponse, hne, selectExtract, hm, hv]
  · intro response c hm hv
    have hne := matchJsonFence_trim_ne_nil hm
    cases hr : repairTruncatedJson response with
    | none => simp [processResponse, hne, selectExtract, hm, hv, hr]
    | some v => simp [processResponse, hne, selectExtract, hm, hv, hr]

/-- Witness for the amended C2: the fenced block wins over the bare
object on `fencedPrecedenceResponse`, and the fall-through-free failure
path fires on `fencedFallthroughResponse`. -/
theorem fenced_block_precedence_witness :
    (processResponse fencedPrecedenceResponse).1 =
      Except.ok (Json.obj [("a".data, Json.num 1)]) ∧
    (processResponse fencedFallthroughResponse).1 =
      (match repairTruncatedJson fencedFallthroughResponse with
        | some v => Except.ok v
        | none => Except.error parseFailedMsg) :=
  ⟨fenced_block_precedence.1 fencedPrecedenceResponse "\x7b\"a\": 1\x7d".data
      (Json.obj [("a".data, Json.num 1)]) rfl rfl,
   fenced_block_precedence.2 fencedFallthroughResponse "\x7bbad".data rfl rfl⟩

/-!  ## C1: truncation repair — roundtrip and truncation lemmas for the JSON model  -/

def Closers (C : Str) : Prop := ∀ c ∈ C, c = '}' ∨ c = ']'

theorem wsRBrace : isJsonWs '}' = false := by decide

theorem wsRBracket : isJsonWs ']' = false := by decide

theorem digitRBrace : Char.isDigit '}' = false := by decide

theorem digitRBracket : Char.isDigit ']' = false := by decide

theorem closers_nil : Closers [] := by intro c hc; cases hc

theorem closers_tail {c : Char} {C : Str} (h : Closers (c :: C)) : Closers C :=
  fun d hd => h d (List.mem_cons_of_mem c hd)

theorem closers_suffix {C C' : Str} (h : Closers C) (hs : C' <:+ C) : Closers C' :=
  fun d hd => h d (hs.subset hd)

theorem parseStringBody_closers {C : Str} (hC : Closers C) :
    ∀ fuel, parseStringBody fuel C = none := by
  induction C with
  | nil => intro fuel; cases fuel <;> rfl
  | cons c r ih =>
    intro fuel
    cases fuel with
    | zero => rfl
    | succ fuel =>
      rcases hC c (List.mem_cons_self c r) with rfl | rfl <;>
        simp [parseStringBody, ih (closers_tail hC) fuel]

theorem parseValue_closers {C : Str} (hC : Closers C) :
    ∀ fuel, parseValue fuel C = none := by
  intro fuel
  cases fuel with
  | zero => rfl
  | succ fuel =>
    cases C with
    | nil => rfl
    | cons c r =>
      rcases hC c (List.mem_cons_self c r) with rfl | rfl <;>
        simp [parseValue, skipWs, List.dropWhile_cons, wsRBrace, wsRBracket, digitRBrace,
          digitRBracket]

theorem skipWs_closers {C : Str} (hC : Closers C) : skipWs C = C := by
  cases C with
  | nil => rfl
  | cons c r =>
    rcases hC c (List.mem_cons_self c r) with rfl | rfl <;>
      simp [skipWs, List.dropWhile_cons, wsRBrace, wsRBracket]

theorem parseHexDigit_hexDigit {k : Nat} (hk : k < 16) : parseHexDigit (hexDigit k) = some k := by
  interval_cases k <;> decide

theorem escChar_step (c : Char) (t : Str) (fuel : Nat) :
    parseStringBody (fuel + 1) (escChar c ++ t) =
      (parseStringBody fuel t).map fun p => (c :: p.1, p.2) := by
  by_cases h1 : c = '"'
  · subst h1; simp [escChar, parseStringBody, parseEscapeChar]
  by_cases h2 : c = '\\'
  · subst h2; simp [escChar, parseStringBody, parseEscapeChar]
  by_cases h3 : c = '\x08'
  · subst h3; simp [escChar, parseStringBody, parseEscapeChar]
  by_cases h4 : c = '\t'
  · subst h4; simp [escChar, parseStringBody, parseEscapeChar]
  by_cases h5 : c = '\n'
  · subst h5; simp [escChar, parseStringBody, parseEscapeChar]
  by_cases h6 : c = '\x0c'
  · subst h6; simp [escChar, parseStringBody, parseEscapeChar]
  by_cases h7 : c = '\r'
  · subst h7; simp [escChar, parseStringBody, parseEscapeChar]
  by_cases h8 : c.toNat < 32
  · have hdiv : c.toNat / 16 < 16 := by omega
    have hmod : c.toNat % 16 < 16 := by omega
    rw [escChar]
    simp only [h1, h2, h3, h4, h5, h6, h7, h8, if_true, if_false, ite_true, ite_false,
      if_neg, if_pos]
    simp only [List.cons_append, List.nil_append, List.singleton_append]
    rw [parseStringBody]
    have hz : parseHexDigit '0' = some 0 := by decide
    have hc : Char.ofNat (c.toNat / 16 * 16 + c.toNat % 16) = c := by
      have harith : c.toNat / 16 * 16 + c.toNat % 16 = c.toNat := by omega
      rw [harith, Char.ofNat_toNat]
    simp [parseEscapeChar, hz, parseHexDigit_hexDigit hdiv, parseHexDigit_hexDigit hmod, hc]
  · have h32 : 32 ≤ c.toNat := by omega
    rw [escChar]
    simp only [h1, h2, h3, h4, h5, h6, h7, h8, if_false, ite_false]
    simp only [List.cons_append, List.nil_append, List.singleton_append]
    rw [parseStringBody]
    simp [h1, h2, h32]

theorem escBody_cons (c : Char) (s : Str) : escBody (c :: s) = escChar c ++ escBody s := by
  simp [escBody]

theorem escChar_length_pos (c : Char) : 0 < (escChar c).length := by
  rw [escChar]; split_ifs <;> simp

theorem parseStringBody_roundtrip (s : Str) : ∀ (fuel : Nat) (t : Str), s.length < fuel →
    parseStringBody fuel (escBody s ++ '"' :: t) = some (s, t) := by
  induction s with
  | nil =>
    intro fuel t hf
    cases fuel with
    | zero => omega
    | succ fuel => simp [escBody, parseStringBody]
  | cons c s ih =>
    intro fuel t hf
    cases fuel with
    | zero => omega
    | succ fuel =>
      rw [escBody_cons, List.append_assoc, escChar_step]
      rw [ih fuel t (by simp at hf; omega)]
      rfl

theorem parseEscapeChar_closers {C : Str} (hC : Closers C) : parseEscapeChar C = none := by
  cases C with
  | nil => rfl
  | cons c r =>
    rcases hC c (List.mem_cons_self c r) with rfl | rfl <;> simp [parseEscapeChar]

theorem parseHexDigit_closer {c : Char} (h : c = '}' ∨ c = ']') : parseHexDigit c = none := by
  rcases h with rfl | rfl <;> decide

theorem parseEscapeChar_u_short (r : Str) (h : r.length < 4) :
    parseEscapeChar ('u' :: r) = none := by
  rcases r with _ | ⟨a, _ | ⟨b, _ | ⟨c, _ | ⟨d, r⟩⟩⟩⟩
  · simp [parseEscapeChar]
  · simp [parseEscapeChar]
  · simp [parseEscapeChar]
  · simp [parseEscapeChar]
  · simp at h; omega

theorem parseEscapeChar_u_badHex (h1 h2 h3 h4 : Char) (r : Str)
    (h : parseHexDigit h1 = none ∨ parseHexDigit h2 = none ∨ parseHexDigit h3 = none ∨
      parseHexDigit h4 = none) :
    parseEscapeChar ('u' :: h1 :: h2 :: h3 :: h4 :: r) = none := by
  cases hp1 : parseHexDigit h1 <;> cases hp2 : parseHexDigit h2 <;>
    cases hp3 : parseHexDigit h3 <;> cases hp4 : parseHexDigit h4 <;>
    simp_all [parseEscapeChar]

theorem parseStringBody_escFail (fuel : Nat) (r : Str) (h : parseEscapeChar r = none) :
    parseStringBody fuel ('\\' :: r) = none := by
  cases fuel with
  | zero => rfl
  | succ fuel => simp [parseStringBody, h]

theorem parseEscapeChar_u_closers0 {C : Str} (hC : Closers C) :
    parseEscapeChar ('u' :: C) = none := by
  rcases C with _ | ⟨c1, _ | ⟨c2, _ | ⟨c3, _ | ⟨c4, r⟩⟩⟩⟩
  · exact parseEscapeChar_u_short [] (by simp)
  · exact parseEscapeChar_u_short [c1] (by simp)
  · exact parseEscapeChar_u_short [c1, c2] (by simp)
  · exact parseEscapeChar_u_short [c1, c2, c3] (by simp)
  · exact parseEscapeChar_u_badHex c1 c2 c3 c4 r
      (Or.inl (parseHexDigit_closer (hC c1 (by simp))))

theorem parseEscapeChar_u_closers1 {C : Str} (hC : Closers C) :
    parseEscapeChar ('u' :: '0' :: C) = none := by
  rcases C with _ | ⟨c1, _ | ⟨c2, _ | ⟨c3, r⟩⟩⟩
  · exact parseEscapeChar_u_short ['0'] (by simp)
  · exact parseEscapeChar_u_short ['0', c1] (by simp)
  · exact parseEscapeChar_u_short ['0', c1, c2] (by simp)
  · exact parseEscapeChar_u_badHex '0' c1 c2 c3 r
      (Or.inr (Or.inl (parseHexDigit_closer (hC c1 (by simp)))))

theorem parseEscapeChar_u_closers2 {C : Str} (hC : Closers C) :
    parseEscapeChar ('u' :: '0' :: '0' :: C) = none := by
  rcases C with _ | ⟨c1, _ | ⟨c2, r⟩⟩
  · exact parseEscapeChar_u_short ['0', '0'] (by simp)
  · exact parseEscapeChar_u_short ['0', '0', c1] (by simp)
  · exact parseEscapeChar_u_badHex '0' '0' c1 c2 r
      (Or.inr (Or.inr (Or.inl (parseHexDigit_closer (hC c1 (by simp))))))

theorem parseEscapeChar_u_closers3 (hd : Char) {C : Str} (hC : Closers C) :
    parseEscapeChar ('u' :: '0' :: '0' :: hd :: C) = none := by
  rcases C with _ | ⟨c1, r⟩
  · exact parseEscapeChar_u_short ['0', '0', hd] (by simp)
  · exact parseEscapeChar_u_badHex '0' '0' hd c1 r
      (Or.inr (Or.inr (Or.inr (parseHexDigit_closer (hC c1 (by simp))))))

theorem parseStringBody_truncated (s : Str) : ∀ (fuel m : Nat) (C : Str),
    m ≤ (escBody s).length → Closers C →
    parseStringBody fuel ((escBody s).take m ++ C) = none := by
  induction s with
  | nil =>
    intro fuel m C hm hC
    have hm0 : m = 0 := by simpa [escBody] using hm
    subst hm0
    simpa [escBody] using parseStringBody_closers hC fuel
  | cons c s ih =>
    intro fuel m C hm hC
    rw [escBody_cons] at hm ⊢
    by_cases hcut : (escChar c).length ≤ m
    · rw [List.take_append_eq_append_take, List.take_of_length_le hcut, List.append_assoc]
      cases fuel with
      | zero => rfl
      | succ fuel =>
        rw [escChar_step, ih fuel (m - (escChar c).length) C
          (by simp only [List.length_append] at hm; omega) hC]
        rfl
    · push_neg at hcut
      rw [List.take_append_eq_append_take,
        (by omega : m - (escChar c).length = 0), List.take_zero, List.append_nil]
      by_cases h1 : c = '"'
      · subst h1
        simp only [show escChar '"' = ['\\', '"'] from rfl, List.length_cons,
          List.length_nil] at hcut
        interval_cases m
        · exact parseStringBody_closers hC fuel
        · exact parseStringBody_escFail fuel _ (by
            simpa using parseEscapeChar_closers hC)
      by_cases h2 : c = '\\'
      · subst h2
        simp only [show escChar '\\' = ['\\', '\\'] from rfl, List.length_cons,
          List.length_nil] at hcut
        interval_cases m
        · exact parseStringBody_closers hC fuel
        · exact parseStringBody_escFail fuel _ (by simpa using parseEscapeChar_closers hC)
      by_cases h3 : c = '\x08'
      · subst h3
        simp only [show escChar '\x08' = ['\\', 'b'] from rfl, List.length_cons,
          List.length_nil] at hcut
        interval_cases m
        · exact parseStringBody_closers hC fuel
        · exact parseStringBody_escFail fuel _ (by simpa using parseEscapeChar_closers hC)
      by_cases h4 : c = '\t'
      · subst h4
        simp only [show escChar '\t' = ['\\', 't'] from rfl, List.length_cons,
          List.length_nil] at hcut
        interval_cases m
        · exact parseStringBody_closers hC fuel
        · exact parseStringBody_escFail fuel _ (by simpa using parseEscapeChar_closers hC)
      by_cases h5 : c = '\n'
      · subst h5
        simp only [show escChar '\n' = ['\\', 'n'] from rfl, List.length_cons,
          List.length_nil] at hcut
        interval_cases m
        · exact parseStringBody_closers hC fuel
        · exact parseStringBody_escFail fuel _ (by simpa using parseEscapeChar_closers hC)
      by_cases h6 : c = '\x0c'
      · subst h6
        simp only [show escChar '\x0c' = ['\\', 'f'] from rfl, List.length_cons,
          List.length_nil] at hcut
        interval_cases m
        · exact parseStringBody_closers hC fuel
        · exact parseStringBody_escFail fuel _ (by simpa using parseEscapeChar_closers hC)
      by_cases h7 : c = '\r'
      · subst h7
        simp only [show escChar '\r' = ['\\', 'r'] from rfl, List.length_cons,
          List.length_nil] at hcut
        interval_cases m
        · exact parseStringBody_closers hC fuel
        · exact parseStringBody_escFail fuel _ (by simpa using parseEscapeChar_closers hC)
      by_cases h8 : c.toNat < 32
      · have hu : escChar c =
            ['\\', 'u', '0', '0', hexDigit (c.toNat / 16), hexDigit (c.toNat % 16)] := by
          rw [escChar]
          simp only [h1, h2, h3, h4, h5, h6, h7, h8, if_false, ite_false, if_pos, ite_true]
        rw [hu] at hcut ⊢
        simp only [List.length_cons, List.length_nil] at hcut
        interval_cases m
        · exact parseStringBody_closers hC fuel
        · exact parseStringBody_escFail fuel _ (by simpa using parseEscapeChar_closers hC)
        · exact parseStringBody_escFail fuel _ (parseEscapeChar_u_closers0 hC)
        · exact parseStringBody_escFail fuel _ (parseEscapeChar_u_closers1 hC)
        · exact parseStringBody_escFail fuel _ (parseEscapeChar_u_closers2 hC)
        · exact parseStringBody_escFail fuel _ (parseEscapeChar_u_closers3 _ hC)
      · have hu : escChar c = [c] := by
          rw [escChar]
          simp only [h1, h2, h3, h4, h5, h6, h7, h8, if_false, ite_false]
        rw [hu] at hcut ⊢
        simp only [List.length_cons, List.length_nil] at hcut
        interval_cases m
        exact parseStringBody_closers hC fuel

def NumSafe : Str → Prop
  | [] => True
  | c :: _ => c.isDigit = false

theorem digitChar_isDigit {k : Nat} (hk : k < 10) : (Char.ofNat (48 + k)).isDigit = true := by
  interval_cases k <;> decide

theorem natDigitsAux_spec : ∀ (fuel n : Nat), n < fuel →
    natDigitsAux fuel n ≠ [] ∧ ∀ c ∈ natDigitsAux fuel n, c.isDigit = true := by
  intro fuel
  induction fuel with
  | zero => intro n h; omega
  | succ fuel ih =>
    intro n h
    rw [natDigitsAux]
    by_cases hn : n < 10
    · refine ⟨by simp [hn], ?_⟩
      intro c hc
      simp [hn] at hc
      subst hc
      exact digitChar_isDigit hn
    · have hlt : n / 10 < fuel := by omega
      rcases ih (n / 10) hlt with ⟨hne, hall⟩
      refine ⟨by simp [hn, hne], ?_⟩
      intro c hc
      simp [hn] at hc
      rcases hc with hc | hc
      · exact hall c hc
      · subst hc
        exact digitChar_isDigit (by omega)

theorem natDigits_ne_nil (n : Nat) : natDigits n ≠ [] :=
  (natDigitsAux_spec (n + 1) n (by omega)).1

theorem natDigits_digits (n : Nat) : ∀ c ∈ natDigits n, c.isDigit = true :=
  (natDigitsAux_spec (n + 1) n (by omega)).2

theorem digit_ne {c : Char} (h : c.isDigit = true) :
    isJsonWs c = false ∧ c ≠ '\x7b' ∧ c ≠ '[' ∧ c ≠ '"' ∧ c ≠ 't' ∧ c ≠ 'f' ∧ c ≠ 'n' ∧
    c ≠ '-' ∧ c ≠ '\x7d' ∧ c ≠ ']' ∧ c ≠ ',' ∧ c ≠ ':' := by
  refine ⟨?_, ?_, ?_, ?_, ?_, ?_, ?_, ?_, ?_, ?_, ?_, ?_⟩
  · by_contra hw
    have hw2 : isJsonWs c = true := by
      cases hb : isJsonWs c
      · exact absurd hb hw
      · rfl
    have hw3 : c = ' ' ∨ c = '\t' ∨ c = '\n' ∨ c = '\r' ∨ c = '\x0b' ∨ c = '\x0c' := by
      simp only [isJsonWs, Bool.or_eq_true, decide_eq_true_iff] at hw2
      tauto
    rcases hw3 with rfl | rfl | rfl | rfl | rfl | rfl <;> simp at h
  all_goals intro he; rw [he] at h; exact absurd h (by decide)

theorem takeWhile_digits {ds rest : Str} (hds : ∀ c ∈ ds, c.isDigit = true)
    (hrest : NumSafe rest) :
    (ds ++ rest).takeWhile Char.isDigit = ds ∧ (ds ++ rest).dropWhile Char.isDigit = rest := by
  induction ds with
  | nil =>
    cases rest with
    | nil => simp
    | cons c r =>
      have : c.isDigit = false := hrest
      simp [List.takeWhile_cons, List.dropWhile_cons, this]
  | cons d ds ih =>
    have hd := hds d (by simp)
    have ih2 := ih (fun c hc => hds c (by simp [hc]))
    simp [List.takeWhile_cons, List.dropWhile_cons, hd, ih2.1, ih2.2]

theorem escBody_length_ge (s : Str) : s.length ≤ (escBody s).length := by
  induction s with
  | nil => simp [escBody]
  | cons c s ih =>
    rw [escBody_cons]
    have := escChar_length_pos c
    simp only [List.length_append, List.length_cons]
    omega

theorem serializeMembers_cons (k : Str) (v : Json) (rest : List (Str × Json)) :
    serializeMembers ((k, v) :: rest) =
      serializeString k ++ ':' :: serialize v ++
        (match rest with | [] => [] | _ :: _ => ',' :: serializeMembers rest) := by
  cases rest <;> simp [serializeMembers]

theorem serializeElems_cons (v : Json) (rest : List Json) :
    serializeElems (v :: rest) =
      serialize v ++ (match rest with | [] => [] | _ :: _ => ',' :: serializeElems rest) := by
  cases rest <;> simp [serializeElems]

theorem serialize_headOk (v : Json) :
    ∃ c r, serialize v = c :: r ∧ isJsonWs c = false ∧ c ≠ ']' ∧ c ≠ '}' := by
  cases v with
  | null =>
    refine ⟨'n', _, rfl, ?_, ?_, ?_⟩ <;> decide
  | bool b =>
    cases b with
    | true => refine ⟨'t', _, rfl, ?_, ?_, ?_⟩ <;> decide
    | false => refine ⟨'f', _, rfl, ?_, ?_, ?_⟩ <;> decide
  | num i =>
    rw [serialize, intRepr]
    by_cases hi : i < 0
    · exact ⟨'-', natDigits i.natAbs, by simp [hi], by decide, by decide, by decide⟩
    · rcases List.exists_cons_of_ne_nil (natDigits_ne_nil i.natAbs) with ⟨d, r, hd⟩
      have hdd : d.isDigit = true := natDigits_digits i.natAbs d (by rw [hd]; simp)
      rcases digit_ne hdd with ⟨hw, _, _, _, _, _, _, _, hbr, hbk, _, _⟩
      exact ⟨d, r, by simp [hi, hd], hw, hbk, hbr⟩
  | str s =>
    refine ⟨'"', _, rfl, ?_, ?_, ?_⟩ <;> decide
  | arr xs =>
    refine ⟨'[', _, rfl, ?_, ?_, ?_⟩ <;> decide
  | obj kvs =>
    refine ⟨'{', _, rfl, ?_, ?_, ?_⟩ <;> decide

theorem serialize_ne_nil (v : Json) : serialize v ≠ [] := by
  rcases serialize_headOk v with ⟨c, r, hcr, _⟩
  simp [hcr]

def KeysEq (v w : Json) : Prop :=
  ∀ kvs, v = Json.obj kvs → ∃ kvs', w = Json.obj kvs' ∧ kvs'.map Prod.fst = kvs.map Prod.fst

def KeysSub (v w : Json) : Prop :=
  ∀ kvs, v = Json.obj kvs → ∃ kvs', w = Json.obj kvs' ∧
    ∀ k ∈ kvs'.map Prod.fst, k ∈ kvs.map Prod.fst

def RStmt (fuel : Nat) : Prop := ∀ (v : Json) (rest : Str),
  2 * (serialize v ++ rest).length < fuel → NumSafe rest →
  ∃ w, parseValue fuel (serialize v ++ rest) = some (w, rest) ∧ KeysEq v w

def RMStmt (fuel : Nat) : Prop := ∀ (kvs acc : List (Str × Json)) (rest : Str),
  2 * (serializeMembers kvs ++ '}' :: rest).length + 1 < fuel → (kvs = [] → acc = []) →
  ∃ kvs', parseMembers fuel acc (serializeMembers kvs ++ '}' :: rest) =
      some (Json.obj (acc ++ kvs'), rest) ∧ kvs'.map Prod.fst = kvs.map Prod.fst

def REStmt (fuel : Nat) : Prop := ∀ (xs : List Json) (acc : List Json) (rest : Str),
  2 * (serializeElems xs ++ ']' :: rest).length + 1 < fuel → (xs = [] → acc = []) →
  ∃ ws, parseElems fuel acc (serializeElems xs ++ ']' :: rest) =
      some (Json.arr (acc ++ ws), rest)

def TStmt (fuel : Nat) : Prop := ∀ (v : Json) (n : Nat) (C : Str),
  Closers C → n < (serialize v).length → 2 * ((serialize v).take n ++ C).length < fuel →
  parseValue fuel ((serialize v).take n ++ C) = none ∨
  ∃ w rest, parseValue fuel ((serialize v).take n ++ C) = some (w, rest) ∧ rest <:+ C ∧
    KeysSub v w

def TMStmt (fuel : Nat) : Prop := ∀ (kvs acc : List (Str × Json)) (n : Nat) (C : Str),
  Closers C → n < (serializeMembers kvs ++ ['}']).length →
  2 * ((serializeMembers kvs ++ ['}']).take n ++ C).length + 1 < fuel →
  parseMembers fuel acc ((serializeMembers kvs ++ ['}']).take n ++ C) = none ∨
  ∃ kvs' rest, parseMembers fuel acc ((serializeMembers kvs ++ ['}']).take n ++ C) =
      some (Json.obj (acc ++ kvs'), rest) ∧ rest <:+ C ∧
      ∀ k ∈ kvs'.map Prod.fst, k ∈ kvs.map Prod.fst

def TEStmt (fuel : Nat) : Prop := ∀ (xs : List Json) (acc : List Json) (n : Nat) (C : Str),
  Closers C → n < (serializeElems xs ++ [']']).length →
  2 * ((serializeElems xs ++ [']']).take n ++ C).length + 1 < fuel →
  parseElems fuel acc ((serializeElems xs ++ [']']).take n ++ C) = none ∨
  ∃ ws rest, parseElems fuel acc ((serializeElems xs ++ [']']).take n ++ C) =
      some (Json.arr (acc ++ ws), rest) ∧ rest <:+ C

theorem RStep (fuel : Nat) (ihRM : RMStmt fuel) (ihRE : REStmt fuel) : RStmt (fuel + 1) := by
  intro v rest hlen hsafe
  cases v with
  | null =>
    refine ⟨Json.null, ?_, fun kvs h => by cases h⟩
    simp [serialize, parseValue, skipWs, List.dropWhile_cons, isJsonWs]
  | bool b =>
    cases b with
    | true =>
      refine ⟨Json.bool true, ?_, fun kvs h => by cases h⟩
      simp [serialize, parseValue, skipWs, List.dropWhile_cons, isJsonWs]
    | false =>
      refine ⟨Json.bool false, ?_, fun kvs h => by cases h⟩
      simp [serialize, parseValue, skipWs, List.dropWhile_cons, isJsonWs]
  | num i =>
    rw [serialize, intRepr]
    rcases takeWhile_digits (natDigits_digits i.natAbs) hsafe with ⟨htw, hdw⟩
    by_cases hi : i < 0
    · simp only [hi, ite_true]
      refine ⟨Json.num (-(digitsToNat (natDigits i.natAbs) : Int)), ?_,
        fun kvs h => by cases h⟩
      rcases List.exists_cons_of_ne_nil (natDigits_ne_nil i.natAbs) with ⟨d, ds, hd⟩
      have hdd : d.isDigit = true := natDigits_digits i.natAbs d (by rw [hd]; simp)
      have hfold1 : List.takeWhile Char.isDigit (d :: (ds ++ rest)) = natDigits i.natAbs := by
        rw [← List.cons_append, ← hd]; exact htw
      have h2 : List.dropWhile Char.isDigit (ds ++ rest) = rest := by
        rw [hd, List.cons_append, List.dropWhile_cons] at hdw
        simpa [hdd] using hdw
      rw [List.cons_append, parseValue]
      simp [skipWs, List.dropWhile_cons, isJsonWs, hfold1, hdd, h2, hd]
    · simp only [hi, ite_false]
      rcases List.exists_cons_of_ne_nil (natDigits_ne_nil i.natAbs) with ⟨d, ds, hd⟩
      have hdd : d.isDigit = true := natDigits_digits i.natAbs d (by rw [hd]; simp)
      rcases digit_ne hdd with ⟨hw, hne1, hne2, hne3, hne4, hne5, hne6, hne7, _, _, _, _⟩
      refine ⟨Json.num (digitsToNat (natDigits i.natAbs)), ?_, fun kvs h => by cases h⟩
      have hfold1 : List.takeWhile Char.isDigit (d :: (ds ++ rest)) = natDigits i.natAbs := by
        rw [← List.cons_append, ← hd]; exact htw
      have hfold2 : List.dropWhile Char.isDigit (d :: (ds ++ rest)) = rest := by
        rw [← List.cons_append, ← hd]; exact hdw
      rw [hd, List.cons_append, parseValue]
      have hskip : skipWs (d :: (ds ++ rest)) = d :: (ds ++ rest) := by
        simp [skipWs, List.dropWhile_cons, hw]
      rw [hskip]
      simp [hne1, hne2, hne3, hne4, hne5, hne6, hne7, hdd, hfold1, hfold2, hd]
  | str s =>
    refine ⟨Json.str s, ?_, fun kvs h => by cases h⟩
    rw [serialize, serializeString, List.cons_append, List.cons_append, List.append_assoc,
      List.singleton_append, parseValue]
    rw [show skipWs ('"' :: (escBody s ++ '"' :: rest)) =
      '"' :: (escBody s ++ '"' :: rest) from by simp [skipWs, List.dropWhile_cons, isJsonWs]]
    have hfuel : s.length < fuel := by
      have h1 := escBody_length_ge s
      simp only [List.length_append, serialize, serializeString, List.length_cons] at hlen
      omega
    simp [parseStringBody_roundtrip s fuel rest hfuel]
  | arr xs =>
    rw [serialize, List.cons_append, List.cons_append, List.append_assoc,
      List.singleton_append, parseValue]
    rw [show skipWs ('[' :: (serializeElems xs ++ ']' :: rest)) =
      '[' :: (serializeElems xs ++ ']' :: rest) from by
        simp [skipWs, List.dropWhile_cons, isJsonWs]]
    have hfuel : 2 * (serializeElems xs ++ ']' :: rest).length + 1 < fuel := by
      simp only [serialize, List.length_append, List.length_cons] at hlen ⊢
      omega
    rcases ihRE xs [] rest hfuel (fun _ => rfl) with ⟨ws, hws⟩
    refine ⟨Json.arr ws, ?_, fun kvs h => by cases h⟩
    simp [hws]
  | obj kvs =>
    rw [serialize, List.cons_append, List.cons_append, List.append_assoc,
      List.singleton_append, parseValue]
    rw [show skipWs ('{' :: (serializeMembers kvs ++ '}' :: rest)) =
      '{' :: (serializeMembers kvs ++ '}' :: rest) from by
        simp [skipWs, List.dropWhile_cons, isJsonWs]]
    have hfuel : 2 * (serializeMembers kvs ++ '}' :: rest).length + 1 < fuel := by
      simp only [serialize, List.length_append, List.length_cons] at hlen ⊢
      omega
    rcases ihRM kvs [] rest hfuel (fun _ => rfl) with ⟨kvs', hkvs', hmap⟩
    refine ⟨Json.obj kvs', ?_, ?_⟩
    · simp [hkvs']
    · intro kvs0 h0
      cases h0
      exact ⟨kvs', rfl, hmap⟩

theorem skipWs_cons {c : Char} (h : isJsonWs c = false) (X : Str) :
    skipWs (c :: X) = c :: X := by
  simp [skipWs, List.dropWhile_cons, h]

theorem RMStep (fuel : Nat) (ihR : RStmt fuel) (ihRM : RMStmt fuel) : RMStmt (fuel + 1) := by
  intro kvs acc rest hlen hacc
  cases kvs with
  | nil =>
    have hacc2 := hacc rfl
    subst hacc2
    refine ⟨[], ?_, rfl⟩
    simp [serializeMembers, parseMembers, skipWs, List.dropWhile_cons, isJsonWs]
  | cons kv kvs' =>
    obtain ⟨k, v⟩ := kv
    cases kvs' with
    | nil =>
      have heq : serializeMembers [(k, v)] ++ '}' :: rest =
          '"' :: (escBody k ++ '"' :: ':' :: (serialize v ++ '}' :: rest)) := by
        simp [serializeMembers, serializeString]
      rw [heq] at hlen ⊢
      have hklen : k.length < fuel := by
        have h1 := escBody_length_ge k
        simp only [List.length_cons, List.length_append] at hlen
        omega
      rcases ihR v ('}' :: rest) (by
          simp only [List.length_cons, List.length_append] at hlen ⊢
          omega)
        (by exact (by decide : ('}' : Char).isDigit = false)) with ⟨w, hw, _⟩
      refine ⟨[(k, w)], ?_, by simp⟩
      rw [parseMembers, skipWs_cons (by decide)]
      simp [parseStringBody_roundtrip k fuel _ hklen,
        skipWs_cons (show isJsonWs ':' = false from by decide),
        skipWs_cons (show isJsonWs '}' = false from by decide), hw]
    | cons kv2 kvs2 =>
      have heq : serializeMembers ((k, v) :: kv2 :: kvs2) ++ '}' :: rest =
          '"' :: (escBody k ++ '"' :: ':' :: (serialize v ++
            ',' :: (serializeMembers (kv2 :: kvs2) ++ '}' :: rest))) := by
        simp [serializeMembers_cons, serializeString]
      rw [heq] at hlen ⊢
      have hklen : k.length < fuel := by
        have h1 := escBody_length_ge k
        simp only [List.length_cons, List.length_append] at hlen
        omega
      rcases ihR v (',' :: (serializeMembers (kv2 :: kvs2) ++ '}' :: rest)) (by
          simp only [List.length_cons, List.length_append] at hlen ⊢
          omega)
        (by exact (by decide : (',' : Char).isDigit = false)) with ⟨w, hw, _⟩
      rcases ihRM (kv2 :: kvs2) (acc ++ [(k, w)]) rest (by
          simp only [List.length_cons, List.length_append] at hlen ⊢
          omega) (fun h => by cases h) with ⟨kvs'', hrec, hmap⟩
      refine ⟨(k, w) :: kvs'', ?_, by simp [hmap]⟩
      rw [show (acc ++ [(k, w)]) ++ kvs'' = acc ++ ((k, w) :: kvs'') from by simp] at hrec
      rw [parseMembers, skipWs_cons (by decide)]
      simp [parseStringBody_roundtrip k fuel _ hklen,
        skipWs_cons (show isJsonWs ':' = false from by decide),
        skipWs_cons (show isJsonWs ',' = false from by decide), hw, hrec]

theorem REStep (fuel : Nat) (ihR : RStmt fuel) (ihRE : REStmt fuel) : REStmt (fuel + 1) := by
  intro xs acc rest hlen hacc
  cases xs with
  | nil =>
    have hacc2 := hacc rfl
    subst hacc2
    refine ⟨[], ?_⟩
    simp [serializeElems, parseElems, skipWs, List.dropWhile_cons, isJsonWs]
  | cons x xs' =>
    rcases serialize_headOk x with ⟨c, r, hcr, hcw, hcb, _⟩
    cases xs' with
    | nil =>
      have heq : serializeElems [x] ++ ']' :: rest = serialize x ++ ']' :: rest := by
        simp [serializeElems]
      rw [heq] at hlen ⊢
      rcases ihR x (']' :: rest) (by
          simp only [List.length_cons, List.length_append] at hlen ⊢
          omega)
        (by exact (by decide : (']' : Char).isDigit = false)) with ⟨w, hw, _⟩
      refine ⟨[w], ?_⟩
      rw [hcr, List.cons_append] at hw ⊢
      rw [parseElems, skipWs_cons hcw]
      simp [hcb, hw, skipWs_cons (show isJsonWs ']' = false from by decide)]
    | cons x2 xs2 =>
      have heq : serializeElems (x :: x2 :: xs2) ++ ']' :: rest =
          serialize x ++ ',' :: (serializeElems (x2 :: xs2) ++ ']' :: rest) := by
        simp [serializeElems_cons]
      rw [heq] at hlen ⊢
      rcases ihR x (',' :: (serializeElems (x2 :: xs2) ++ ']' :: rest)) (by
          simp only [List.length_cons, List.length_append] at hlen ⊢
          omega)
        (by exact (by decide : (',' : Char).isDigit = false)) with ⟨w, hw, _⟩
      rcases ihRE (x2 :: xs2) (acc ++ [w]) rest (by
          simp only [List.length_cons, List.length_append] at hlen ⊢
          omega) (fun h => by cases h) with ⟨ws, hrec⟩
      refine ⟨w :: ws, ?_⟩
      rw [show (acc ++ [w]) ++ ws = acc ++ (w :: ws) from by simp] at hrec
      rw [hcr, List.cons_append] at hw ⊢
      rw [parseElems, skipWs_cons hcw]
      simp [hcb, hw, skipWs_cons (show isJsonWs ',' = false from by decide), hrec]

theorem numSafe_closers {C : Str} (hC : Closers C) : NumSafe C := by
  cases C with
  | nil => trivial
  | cons c1 C' =>
    rcases hC c1 (by simp) with rfl | rfl
    · exact (by decide : ('}' : Char).isDigit = false)
    · exact (by decide : (']' : Char).isDigit = false)

theorem truncated_literal_ne (lit : Str) (j : Nat) (C : Str) (hC : Closers C)
    (hj : j < lit.length) (hlit : ∀ c ∈ lit, c ≠ '}' ∧ c ≠ ']') :
    (lit.take j ++ C).take lit.length ≠ lit := by
  intro heq
  cases C with
  | nil =>
    have hlen : ((lit.take j ++ ([] : Str)).take lit.length).length ≤ j := by
      simp [List.length_take]
    rw [heq] at hlen
    omega
  | cons c1 C' =>
    have hjtake : (lit.take j).length = j := by
      simp [List.length_take]
      omega
    have hget : ((lit.take j ++ c1 :: C').take lit.length)[j]? = some c1 := by
      rw [List.getElem?_take, if_pos hj, List.getElem?_append_right (by omega), hjtake]
      simp
    rw [heq, List.getElem?_eq_getElem hj] at hget
    have hmem : c1 ∈ lit := by
      have := Option.some.inj hget
      rw [← this]
      exact List.getElem_mem hj
    rcases hC c1 (by simp) with rfl | rfl
    · exact (hlit '}' hmem).1 rfl
    · exact (hlit ']' hmem).2 rfl

theorem TStep (fuel : Nat) (ihTM : TMStmt fuel) (ihTE : TEStmt fuel) : TStmt (fuel + 1) := by
  intro v n C hC hn hlen
  cases n with
  | zero =>
    left
    simp only [List.take_zero, List.nil_append]
    exact parseValue_closers hC (fuel + 1)
  | succ n =>
    cases v with
    | null =>
      left
      have hn3 : n < 3 := by simp [serialize] at hn; omega
      have hne : ¬List.take 3 (List.take n ['u', 'l', 'l'] ++ C) = ['u', 'l', 'l'] := by
        simpa using truncated_literal_ne ['u', 'l', 'l'] n C hC (by simp; omega) (by decide)
      rw [show serialize Json.null = 'n' :: ['u', 'l', 'l'] from rfl, List.take_succ_cons,
        List.cons_append, parseValue, skipWs_cons (by decide)]
      simp [hne]
    | bool b =>
      left
      cases b with
      | true =>
        have hn3 : n < 3 := by simp [serialize] at hn; omega
        have hne : ¬List.take 3 (List.take n ['r', 'u', 'e'] ++ C) = ['r', 'u', 'e'] := by
          simpa using truncated_literal_ne ['r', 'u', 'e'] n C hC (by simp; omega) (by decide)
        rw [show serialize (Json.bool true) = 't' :: ['r', 'u', 'e'] from rfl,
          List.take_succ_cons, List.cons_append, parseValue, skipWs_cons (by decide)]
        simp [hne]
      | false =>
        have hn4 : n < 4 := by simp [serialize] at hn; omega
        have hne : ¬List.take 4 (List.take n ['a', 'l', 's', 'e'] ++ C) = ['a', 'l', 's', 'e'] := by
          simpa using truncated_literal_ne ['a', 'l', 's', 'e'] n C hC (by simp; omega) (by decide)
        rw [show serialize (Json.bool false) = 'f' :: ['a', 'l', 's', 'e'] from rfl,
          List.take_succ_cons, List.cons_append, parseValue, skipWs_cons (by decide)]
        simp [hne]
    | num i =>
      rw [serialize, intRepr] at hn hlen ⊢
      by_cases hi : i < 0
      · simp only [hi, ite_true] at hn hlen ⊢
        rw [List.take_succ_cons, List.cons_append, parseValue, skipWs_cons (by decide)]
        cases hds : (natDigits i.natAbs).take n with
        | nil =>
          left
          have htkC : List.takeWhile Char.isDigit C = [] := by
            cases C with
            | nil => rfl
            | cons c1 C' =>
              rcases hC c1 (by simp) with rfl | rfl <;> simp [List.takeWhile_cons]
          simp [htkC]
        | cons d ds' =>
          right
          have hsub : ∀ c ∈ (d :: ds' : Str), c.isDigit = true := by
            intro c hc
            exact natDigits_digits i.natAbs c (List.take_subset n _ (hds ▸ hc))
          rcases takeWhile_digits hsub (numSafe_closers hC) with ⟨htw, hdw⟩
          have htw' : List.takeWhile Char.isDigit (d :: (ds' ++ C)) = d :: ds' := by
            rw [← List.cons_append]; exact htw
          have hdw' : List.dropWhile Char.isDigit (d :: (ds' ++ C)) = C := by
            rw [← List.cons_append]; exact hdw
          refine ⟨Json.num (-(digitsToNat (d :: ds') : Int)), C, ?_, List.suffix_refl C,
            fun kvs h => by cases h⟩
          simp [htw', hdw']
      · simp only [hi, ite_false] at hn hlen ⊢
        right
        rcases List.exists_cons_of_ne_nil (natDigits_ne_nil i.natAbs) with ⟨d, ds, hd⟩
        have hdd : d.isDigit = true := natDigits_digits i.natAbs d (by rw [hd]; simp)
        rcases digit_ne hdd with ⟨hw, hne1, hne2, hne3, hne4, hne5, hne6, hne7, _, _, _, _⟩
        have hdigits : ∀ c ∈ (natDigits i.natAbs).take (n + 1), c.isDigit = true := fun c hc =>
          natDigits_digits i.natAbs c (List.take_subset _ _ hc)
        rcases takeWhile_digits hdigits (numSafe_closers hC) with ⟨htw, hdw⟩
        rw [hd, List.take_succ_cons] at htw hdw ⊢
        rw [List.cons_append, parseValue, skipWs_cons hw]
        refine ⟨Json.num (digitsToNat (d :: (ds.take n))), C, ?_, List.suffix_refl C,
          fun kvs h => by cases h⟩
        have hfold1 : List.takeWhile Char.isDigit (d :: (ds.take n ++ C)) = d :: ds.take n := by
          rw [← List.cons_append]; exact htw
        have hfold2 : List.dropWhile Char.isDigit (d :: (ds.take n ++ C)) = C := by
          rw [← List.cons_append]; exact hdw
        simp [hne1, hne2, hne3, hne4, hne5, hne6, hne7, hdd, hfold1, hfold2]
    | str s =>
      left
      rw [serialize, serializeString] at hn hlen ⊢
      have hnesc : n ≤ (escBody s).length := by
        simp only [List.length_append, List.length_cons, List.cons_append] at hn
        simp at hn
        omega
      rw [List.cons_append, List.take_succ_cons, List.cons_append, parseValue,
        skipWs_cons (by decide)]
      rw [List.take_append_of_le_length hnesc]
      simp [parseStringBody_truncated s (fuel) n C hnesc hC]
    | arr xs =>
      rw [serialize] at hn hlen ⊢
      rw [List.cons_append, List.take_succ_cons, List.cons_append, parseValue,
        skipWs_cons (by decide)]
      have hbound : n < (serializeElems xs ++ [']']).length := by
        simp only [List.length_cons, List.cons_append, List.length_append] at hn ⊢
        simp at hn ⊢
        omega
      have hfuel : 2 * ((serializeElems xs ++ [']']).take n ++ C).length + 1 < fuel := by
        simp only [List.length_append, List.length_take, List.cons_append,
          List.length_cons] at hlen ⊢
        simp at hlen ⊢
        omega
      rcases ihTE xs [] n C hC hbound hfuel with hnone | ⟨ws, rest, hsome, hsuf⟩
      · left
        simp [hnone]
      · right
        refine ⟨Json.arr ws, rest, ?_, hsuf, fun kvs h => by cases h⟩
        simp [hsome]
    | obj kvs =>
      rw [serialize] at hn hlen ⊢
      rw [List.cons_append, List.take_succ_cons, List.cons_append, parseValue,
        skipWs_cons (by decide)]
      have hbound : n < (serializeMembers kvs ++ ['}']).length := by
        simp only [List.length_cons, List.cons_append, List.length_append] at hn ⊢
        simp at hn ⊢
        omega
      have hfuel : 2 * ((serializeMembers kvs ++ ['}']).take n ++ C).length + 1 < fuel := by
        simp only [List.length_append, List.length_take, List.cons_append,
          List.length_cons] at hlen ⊢
        simp at hlen ⊢
        omega
      rcases ihTM kvs [] n C hC hbound hfuel with hnone | ⟨kvs', rest, hsome, hsuf, hsub⟩
      · left
        simp [hnone]
      · right
        refine ⟨Json.obj kvs', rest, ?_, hsuf, ?_⟩
        · simp [hsome]
        · intro kvs0 h0
          cases h0
          exact ⟨kvs', rfl, hsub⟩

theorem parseElems_closers_case {C : Str} (hC : Closers C) (fuel : Nat) (acc : List Json) :
    parseElems fuel acc C = none ∨
    ∃ C', C = ']' :: C' ∧ acc = [] ∧ parseElems fuel acc C = some (Json.arr [], C') := by
  cases fuel with
  | zero => exact Or.inl rfl
  | succ fuel =>
    cases C with
    | nil => exact Or.inl rfl
    | cons c C' =>
      rcases hC c (by simp) with rfl | rfl
      · left
        rw [parseElems, skipWs_cons (by decide)]
        simp [parseValue_closers hC fuel]
      · cases acc with
        | nil =>
          right
          refine ⟨C', rfl, rfl, ?_⟩
          rw [parseElems, skipWs_cons (by decide)]
          simp
        | cons a as =>
          left
          rw [parseElems, skipWs_cons (by decide)]
          simp

theorem parseMembers_closers_case {C : Str} (hC : Closers C) (fuel : Nat)
    (acc : List (Str × Json)) :
    parseMembers fuel acc C = none ∨
    ∃ C', C = '}' :: C' ∧ acc = [] ∧ parseMembers fuel acc C = some (Json.obj [], C') := by
  cases fuel with
  | zero => exact Or.inl rfl
  | succ fuel =>
    cases C with
    | nil => exact Or.inl rfl
    | cons c C' =>
      rcases hC c (by simp) with rfl | rfl
      · cases acc with
        | nil =>
          right
          refine ⟨C', rfl, rfl, ?_⟩
          rw [parseMembers, skipWs_cons (by decide)]
          simp
        | cons a as =>
          left
          rw [parseMembers, skipWs_cons (by decide)]
          simp
      · left
        rw [parseMembers, skipWs_cons (by decide)]
        simp

theorem parseValue_prefix (fuel : Nat) (ihR : RStmt fuel) (ihT : TStmt fuel)
    (x : Json) (n : Nat) (C : Str) (hC : Closers C)
    (hn : n ≤ (serialize x).length)
    (hfuel : 2 * ((serialize x).take n ++ C).length < fuel) :
    parseValue fuel ((serialize x).take n ++ C) = none ∨
    ∃ w rest, parseValue fuel ((serialize x).take n ++ C) = some (w, rest) ∧ rest <:+ C ∧
      KeysSub x w := by
  rcases Nat.lt_or_ge n (serialize x).length with h | h
  · exact ihT x n C hC h hfuel
  · have htk : (serialize x).take n = serialize x := List.take_of_length_le h
    rw [htk] at hfuel ⊢
    rcases ihR x C hfuel (numSafe_closers hC) with ⟨w, hw, hkeys⟩
    right
    refine ⟨w, C, hw, List.suffix_refl C, ?_⟩
    intro kvs hkvs
    rcases hkeys kvs hkvs with ⟨kvs2, hw2, hmap⟩
    refine ⟨kvs2, hw2, ?_⟩
    rw [hmap]
    exact fun k hk => hk

theorem TEStep (fuel : Nat) (ihR : RStmt fuel) (ihT : TStmt fuel) (ihTE : TEStmt fuel) :
    TEStmt (fuel + 1) := by
  intro xs acc n C hC hn hlen
  cases n with
  | zero =>
    rw [List.take_zero, List.nil_append]
    rcases parseElems_closers_case hC (fuel + 1) acc with hnone | ⟨C', hCeq, haccnil, hsome⟩
    · exact Or.inl hnone
    · right
      subst haccnil
      refine ⟨[], C', ?_, ?_⟩
      · simpa using hsome
      · rw [hCeq]
        exact List.suffix_cons ']' C'
  | succ n =>
    cases xs with
    | nil =>
      simp [serializeElems] at hn
    | cons x xs' =>
      rcases serialize_headOk x with ⟨c, r, hcr, hcw, hcbk, hcbr⟩
      by_cases hreg : n + 1 ≤ (serialize x).length
      · have htake : (serializeElems (x :: xs') ++ [']']).take (n + 1) =
            (serialize x).take (n + 1) := by
          rw [serializeElems_cons, List.append_assoc, List.take_append_of_le_length hreg]
        rw [htake] at hlen ⊢
        have hhd : (serialize x).take (n + 1) = c :: r.take n := by
          rw [hcr, List.take_succ_cons]
        rcases parseValue_prefix fuel ihR ihT x (n + 1) C hC hreg (by omega) with
          hnone | ⟨w, rest, hw, hsuf, _⟩
        · left
          rw [hhd, List.cons_append] at hnone ⊢
          rw [parseElems, skipWs_cons hcw]
          simp [hcbk, hnone]
        · have hrest : Closers rest := closers_suffix hC hsuf
          rw [hhd, List.cons_append] at hw ⊢
          cases rest with
          | nil =>
            left
            rw [parseElems, skipWs_cons hcw]
            simp [hcbk, hw, skipWs]
          | cons c2 rest' =>
            rcases hrest c2 (by simp) with rfl | rfl
            · left
              rw [parseElems, skipWs_cons hcw]
              simp [hcbk, hw, skipWs_cons (show isJsonWs '}' = false from by decide)]
            · right
              refine ⟨[w], rest', ?_, (List.suffix_cons ']' rest').trans hsuf⟩
              rw [parseElems, skipWs_cons hcw]
              simp [hcbk, hw, skipWs_cons (show isJsonWs ']' = false from by decide)]
      · push_neg at hreg
        cases xs' with
        | nil =>
          exfalso
          have hlx : (serializeElems [x] ++ ([']'] : Str)).length = (serialize x).length + 1 := by
            simp [serializeElems]
          omega
        | cons x2 xs2 =>
          have heq : serializeElems (x :: x2 :: xs2) ++ [']'] =
              serialize x ++ ',' :: (serializeElems (x2 :: xs2) ++ [']']) := by
            rw [serializeElems_cons]
            simp [List.append_assoc]
          rw [heq] at hn hlen ⊢
          have hm : n - (serialize x).length <
              (serializeElems (x2 :: xs2) ++ ([']'] : Str)).length := by
            simp only [List.length_append, List.length_cons, List.length_nil] at hn ⊢
            omega
          have htake : (serialize x ++ ',' :: (serializeElems (x2 :: xs2) ++ [']'])).take (n + 1) =
              serialize x ++
                ',' :: ((serializeElems (x2 :: xs2) ++ [']']).take (n - (serialize x).length)) := by
            rw [List.take_append_eq_append_take, List.take_of_length_le (by omega),
              show n + 1 - (serialize x).length = (n - (serialize x).length) + 1 from by omega,
              List.take_succ_cons]
          rw [htake] at hlen ⊢
          rw [show (serialize x ++
                ',' :: ((serializeElems (x2 :: xs2) ++ [']']).take (n - (serialize x).length))) ++ C =
              serialize x ++
                ',' :: ((serializeElems (x2 :: xs2) ++ [']']).take (n - (serialize x).length) ++ C)
            from by simp] at hlen ⊢
          have hfuelR : 2 * (serialize x ++
              ',' :: ((serializeElems (x2 :: xs2) ++ [']']).take (n - (serialize x).length) ++
                C)).length < fuel := by
            simp only [List.length_append, List.length_cons] at hlen ⊢
            omega
          rcases ihR x
            (',' :: ((serializeElems (x2 :: xs2) ++ [']']).take (n - (serialize x).length) ++ C))
            hfuelR (by exact (by decide : (',' : Char).isDigit = false)) with ⟨w, hw, _⟩
          have hxpos : 1 ≤ (serialize x).length := by
            rw [hcr]
            simp
          have hfuelE : 2 * ((serializeElems (x2 :: xs2) ++ [']']).take
              (n - (serialize x).length) ++ C).length + 1 < fuel := by
            simp only [List.length_append, List.length_cons] at hlen ⊢
            omega
          rcases ihTE (x2 :: xs2) (acc ++ [w]) (n - (serialize x).length) C hC hm hfuelE with
            hnone | ⟨ws', rest, hsome, hsuf⟩
          · left
            generalize hgen : (serializeElems (x2 :: xs2) ++ [']']).take
              (n - (serialize x).length) ++ C = X
            rw [hgen] at hw hnone
            rw [hcr, List.cons_append] at hw ⊢
            rw [parseElems, skipWs_cons hcw]
            simp [hcbk, hw, skipWs_cons (show isJsonWs ',' = false from by decide), hnone]
          · right
            refine ⟨w :: ws', rest, ?_, hsuf⟩
            rw [show (acc ++ [w]) ++ ws' = acc ++ (w :: ws') from by simp] at hsome
            generalize hgen : (serializeElems (x2 :: xs2) ++ [']']).take
              (n - (serialize x).length) ++ C = X
            rw [hgen] at hw hsome
            rw [hcr, List.cons_append] at hw ⊢
            rw [parseElems, skipWs_cons hcw]
            simp [hcbk, hw, skipWs_cons (show isJsonWs ',' = false from by decide), hsome]

theorem parseMembers_member_prefix (fuel : Nat) (ihR : RStmt fuel) (ihT : TStmt fuel)
    (k : Str) (v : Json) (acc : List (Str × Json)) (n : Nat) (C : Str) (hC : Closers C)
    (hn : n + 1 ≤ ('"' :: (escBody k ++ '"' :: ':' :: serialize v) : Str).length)
    (hfuel : 2 * (('"' :: (escBody k ++ '"' :: ':' :: serialize v) : Str).take (n + 1) ++
      C).length < fuel) :
    parseMembers (fuel + 1) acc
        (('"' :: (escBody k ++ '"' :: ':' :: serialize v) : Str).take (n + 1) ++ C) = none ∨
    ∃ w rest, parseMembers (fuel + 1) acc
        (('"' :: (escBody k ++ '"' :: ':' :: serialize v) : Str).take (n + 1) ++ C) =
        some (Json.obj (acc ++ [(k, w)]), rest) ∧ rest <:+ C := by
  rw [List.take_succ_cons] at hfuel ⊢
  by_cases h1 : n ≤ (escBody k).length
  · left
    have htk : (escBody k ++ '"' :: ':' :: serialize v).take n = (escBody k).take n :=
      List.take_append_of_le_length h1
    rw [htk, List.cons_append, parseMembers, skipWs_cons (by decide)]
    simp [parseStringBody_truncated k fuel n C h1 hC]
  · push_neg at h1
    by_cases h2 : n = (escBody k).length + 1
    · left
      have htk : (escBody k ++ '"' :: ':' :: serialize v).take n = escBody k ++ ['"'] := by
        rw [List.take_append_eq_append_take, List.take_of_length_le (by omega),
          show n - (escBody k).length = 1 from by omega]
        rfl
      rw [htk] at hfuel ⊢
      have hklen : k.length < fuel := by
        have h1l := escBody_length_ge k
        simp only [List.length_cons, List.cons_append, List.length_append,
          List.length_nil] at hfuel
        omega
      rw [List.cons_append, List.append_assoc, List.singleton_append,
        parseMembers, skipWs_cons (by decide)]
      simp only [parseStringBody_roundtrip k fuel C hklen]
      rw [skipWs_closers hC]
      cases C with
      | nil => simp
      | cons c2 C2 =>
        rcases hC c2 (by simp) with rfl | rfl <;> simp
    · have h3 : (escBody k).length + 2 ≤ n := by omega
      have hm : n - ((escBody k).length + 2) ≤ (serialize v).length := by
        simp only [List.length_cons, List.length_append] at hn
        omega
      have htk : (escBody k ++ '"' :: ':' :: serialize v).take n =
          escBody k ++ '"' :: ':' :: (serialize v).take (n - ((escBody k).length + 2)) := by
        rw [List.take_append_eq_append_take, List.take_of_length_le (by omega),
          show n - (escBody k).length = (n - ((escBody k).length + 2)) + 1 + 1 from by omega,
          List.take_succ_cons, List.take_succ_cons]
      rw [htk] at hfuel ⊢
      have hklen : k.length < fuel := by
        have h1l := escBody_length_ge k
        simp only [List.length_cons, List.cons_append, List.length_append,
          List.length_nil, List.length_take] at hfuel
        omega
      have hpv := parseValue_prefix fuel ihR ihT v (n - ((escBody k).length + 2)) C hC hm (by
        simp only [List.length_cons, List.cons_append, List.length_append,
          List.length_nil, List.length_take] at hfuel ⊢
        omega)
      have hshape : ('"' :: ((escBody k ++ '"' :: ':' ::
            (serialize v).take (n - ((escBody k).length + 2))) ++ C) : Str) =
          '"' :: (escBody k ++ '"' :: ':' ::
            ((serialize v).take (n - ((escBody k).length + 2)) ++ C)) := by
        simp
      rw [List.cons_append, hshape]
      generalize hgen : (serialize v).take (n - ((escBody k).length + 2)) ++ C = X
      rw [hgen] at hpv
      rw [parseMembers, skipWs_cons (by decide)]
      rcases hpv with hnone | ⟨w, rest, hw, hsuf, _⟩
      · left
        simp [parseStringBody_roundtrip k fuel _ hklen,
          skipWs_cons (show isJsonWs ':' = false from by decide), hnone]
      · have hrest : Closers rest := closers_suffix hC hsuf
        cases rest with
        | nil =>
          left
          simp [parseStringBody_roundtrip k fuel _ hklen, hw, skipWs,
            List.dropWhile_cons, List.dropWhile_nil, isJsonWs]
        | cons c2 rest' =>
          rcases hrest c2 (by simp) with rfl | rfl
          · right
            refine ⟨w, rest', ?_, (List.suffix_cons '}' rest').trans hsuf⟩
            simp [parseStringBody_roundtrip k fuel _ hklen,
              skipWs_cons (show isJsonWs ':' = false from by decide), hw,
              skipWs_cons (show isJsonWs '}' = false from by decide)]
          · left
            simp [parseStringBody_roundtrip k fuel _ hklen,
              skipWs_cons (show isJsonWs ':' = false from by decide), hw,
              skipWs_cons (show isJsonWs ']' = false from by decide)]

theorem TMStep (fuel : Nat) (ihR : RStmt fuel) (ihT : TStmt fuel) (ihTM : TMStmt fuel) :
    TMStmt (fuel + 1) := by
  intro kvs acc n C hC hn hlen
  cases n with
  | zero =>
    rw [List.take_zero, List.nil_append]
    rcases parseMembers_closers_case hC (fuel + 1) acc with hnone | ⟨C', hCeq, haccnil, hsome⟩
    · exact Or.inl hnone
    · right
      subst haccnil
      refine ⟨[], C', ?_, ?_, ?_⟩
      · simpa using hsome
      · rw [hCeq]
        exact List.suffix_cons '}' C'
      · intro key hkey
        simp at hkey
  | succ n =>
    cases kvs with
    | nil => simp [serializeMembers] at hn
    | cons kv kvs' =>
      obtain ⟨k, v⟩ := kv
      cases kvs' with
      | nil =>
        have heq : serializeMembers [(k, v)] ++ (['}'] : Str) =
            ('"' :: (escBody k ++ '"' :: ':' :: serialize v)) ++ ['}'] := by
          simp [serializeMembers, serializeString]
        rw [heq] at hn hlen ⊢
        have hreg : n + 1 ≤ ('"' :: (escBody k ++ '"' :: ':' :: serialize v) : Str).length := by
          simp only [List.length_append, List.length_cons, List.length_nil] at hn ⊢
          omega
        rw [List.take_append_of_le_length hreg] at hlen ⊢
        rcases parseMembers_member_prefix fuel ihR ihT k v acc n C hC hreg (by omega) with
          hnone | ⟨w, rest, hsome, hsuf⟩
        · exact Or.inl hnone
        · right
          refine ⟨[(k, w)], rest, hsome, hsuf, ?_⟩
          intro key hkey
          simp only [List.map_cons, List.map_nil, List.mem_singleton] at hkey
          simp only [List.map_cons, List.mem_cons]
          exact Or.inl hkey
      | cons kv2 kvs2 =>
        obtain ⟨k2, v2⟩ := kv2
        have heq : serializeMembers ((k, v) :: (k2, v2) :: kvs2) ++ (['}'] : Str) =
            ('"' :: (escBody k ++ '"' :: ':' :: serialize v)) ++
              ',' :: (serializeMembers ((k2, v2) :: kvs2) ++ ['}']) := by
          simp [serializeMembers_cons, serializeString]
        rw [heq] at hn hlen ⊢
        by_cases hreg : n + 1 ≤ ('"' :: (escBody k ++ '"' :: ':' :: serialize v) : Str).length
        · rw [List.take_append_of_le_length hreg] at hlen ⊢
          rcases parseMembers_member_prefix fuel ihR ihT k v acc n C hC hreg (by omega) with
            hnone | ⟨w, rest, hsome, hsuf⟩
          · exact Or.inl hnone
          · right
            refine ⟨[(k, w)], rest, hsome, hsuf, ?_⟩
            intro key hkey
            simp only [List.map_cons, List.map_nil, List.mem_singleton] at hkey
            simp only [List.map_cons, List.mem_cons]
            exact Or.inl hkey
        · push_neg at hreg
          have hm : n - ('"' :: (escBody k ++ '"' :: ':' :: serialize v) : Str).length <
              (serializeMembers ((k2, v2) :: kvs2) ++ (['}'] : Str)).length := by
            simp only [List.length_append, List.length_cons, List.length_nil] at hn ⊢
            simp only [List.length_append, List.length_cons, List.length_nil] at hreg
            omega
          have htake : (('"' :: (escBody k ++ '"' :: ':' :: serialize v)) ++
                ',' :: (serializeMembers ((k2, v2) :: kvs2) ++ ['}'])).take (n + 1) =
              ('"' :: (escBody k ++ '"' :: ':' :: serialize v)) ++
                ',' :: ((serializeMembers ((k2, v2) :: kvs2) ++ ['}']).take
                  (n - ('"' :: (escBody k ++ '"' :: ':' :: serialize v) : Str).length)) := by
            rw [List.take_append_eq_append_take, List.take_of_length_le (by omega),
              show n + 1 - ('"' :: (escBody k ++ '"' :: ':' :: serialize v) : Str).length =
                (n - ('"' :: (escBody k ++ '"' :: ':' :: serialize v) : Str).length) + 1
                from by omega,
              List.take_succ_cons]
          rw [htake] at hlen ⊢
          rw [show (('"' :: (escBody k ++ '"' :: ':' :: serialize v)) ++
                ',' :: ((serializeMembers ((k2, v2) :: kvs2) ++ ['}']).take
                  (n - ('"' :: (escBody k ++ '"' :: ':' :: serialize v) : Str).length))) ++ C =
              '"' :: (escBody k ++ '"' :: ':' :: (serialize v ++
                ',' :: ((serializeMembers ((k2, v2) :: kvs2) ++ ['}']).take
                  (n - ('"' :: (escBody k ++ '"' :: ':' :: serialize v) : Str).length) ++ C)))
            from by simp] at hlen ⊢
          have hklen : k.length < fuel := by
            have h1l := escBody_length_ge k
            simp only [List.length_cons, List.length_append, List.length_nil,
              List.length_take] at hlen
            omega
          have hfuelR : 2 * (serialize v ++
              ',' :: ((serializeMembers ((k2, v2) :: kvs2) ++ ['}']).take
                (n - ('"' :: (escBody k ++ '"' :: ':' :: serialize v) : Str).length) ++
                  C)).length < fuel := by
            simp only [List.length_cons, List.length_append, List.length_nil,
              List.length_take] at hlen ⊢
            omega
          rcases ihR v
            (',' :: ((serializeMembers ((k2, v2) :: kvs2) ++ ['}']).take
              (n - ('"' :: (escBody k ++ '"' :: ':' :: serialize v) : Str).length) ++ C))
            hfuelR (by exact (by decide : (',' : Char).isDigit = false)) with ⟨w, hw, _⟩
          have hfuelM : 2 * ((serializeMembers ((k2, v2) :: kvs2) ++ ['}']).take
              (n - ('"' :: (escBody k ++ '"' :: ':' :: serialize v) : Str).length) ++
                C).length + 1 < fuel := by
            simp only [List.length_cons, List.length_append, List.length_nil,
              List.length_take] at hlen ⊢
            omega
          rcases ihTM ((k2, v2) :: kvs2) (acc ++ [(k, w)])
            (n - ('"' :: (escBody k ++ '"' :: ':' :: serialize v) : Str).length) C hC hm
            hfuelM with hnone | ⟨kvs'', rest, hsome, hsuf, hkeys⟩
          · left
            generalize hgen : (serializeMembers ((k2, v2) :: kvs2) ++ ['}']).take
              (n - ('"' :: (escBody k ++ '"' :: ':' :: serialize v) : Str).length) ++ C = X
            rw [hgen] at hw hnone
            rw [parseMembers, skipWs_cons (by decide)]
            simp [parseStringBody_roundtrip k fuel _ hklen,
              skipWs_cons (show isJsonWs ':' = false from by decide), hw,
              skipWs_cons (show isJsonWs ',' = false from by decide), hnone]
          · right
            refine ⟨(k, w) :: kvs'', rest, ?_, hsuf, ?_⟩
            · rw [show (acc ++ [(k, w)]) ++ kvs'' = acc ++ ((k, w) :: kvs'') from by simp]
                at hsome
              generalize hgen : (serializeMembers ((k2, v2) :: kvs2) ++ ['}']).take
                (n - ('"' :: (escBody k ++ '"' :: ':' :: serialize v) : Str).length) ++ C = X
              rw [hgen] at hw hsome
              rw [parseMembers, skipWs_cons (by decide)]
              simp [parseStringBody_roundtrip k fuel _ hklen,
                skipWs_cons (show isJsonWs ':' = false from by decide), hw,
                skipWs_cons (show isJsonWs ',' = false from by decide), hsome]
            · intro key hkey
              simp only [List.map_cons, List.mem_cons] at hkey ⊢
              rcases hkey with h | h
              · exact Or.inl h
              · have h2 := hkeys key h
                simp only [List.map_cons, List.mem_cons] at h2
                exact Or.inr h2

theorem parseLemmas : ∀ fuel : Nat, RStmt fuel ∧ RMStmt fuel ∧ REStmt fuel ∧
    TStmt fuel ∧ TMStmt fuel ∧ TEStmt fuel := by
  intro fuel
  induction fuel with
  | zero =>
    refine ⟨?_, ?_, ?_, ?_, ?_, ?_⟩
    · intro v rest hlen _
      exact absurd hlen (by omega)
    · intro kvs acc rest hlen _
      exact absurd hlen (by omega)
    · intro xs acc rest hlen _
      exact absurd hlen (by omega)
    · intro v n C _ _ hlen
      exact absurd hlen (by omega)
    · intro kvs acc n C _ _ hlen
      exact absurd hlen (by omega)
    · intro xs acc n C _ _ hlen
      exact absurd hlen (by omega)
  | succ fuel ih =>
    obtain ⟨hR, hRM, hRE, hT, hTM, hTE⟩ := ih
    exact ⟨RStep fuel hRM hRE, RMStep fuel hR hRM, REStep fuel hR hRE,
      TStep fuel hTM hTE, TMStep fuel hR hT hTM, TEStep fuel hR hT hTE⟩

theorem jsonParse_prefix_closers (v : Json) (m : Nat) (C : Str) (hC : Closers C) :
    jsonParse ((serialize v).take m ++ C) = none ∨
    ∃ w, jsonParse ((serialize v).take m ++ C) = some w ∧ KeysSub v w := by
  rcases Nat.lt_or_ge m (serialize v).length with h | h
  · obtain ⟨_, _, _, hT, _, _⟩ := parseLemmas (2 * ((serialize v).take m ++ C).length + 2)
    rw [jsonParse]
    rcases hT v m C hC h (by omega) with hnone | ⟨w, rest, hw, hsuf, hsub⟩
    · left
      rw [hnone]
    · have hrest : Closers rest := closers_suffix hC hsuf
      cases rest with
      | nil =>
        right
        refine ⟨w, ?_, hsub⟩
        rw [hw]
        show (if skipWs ([] : Str) = [] then some w else none) = some w
        simp [skipWs]
      | cons c2 rest2 =>
        left
        rw [hw]
        show (if skipWs (c2 :: rest2) = [] then some w else none) = none
        rw [skipWs_closers hrest]
        simp
  · rw [List.take_of_length_le h]
    obtain ⟨hR, _, _, _, _, _⟩ := parseLemmas (2 * (serialize v ++ C).length + 2)
    rw [jsonParse]
    rcases hR v C (by omega) (numSafe_closers hC) with ⟨w, hw, hkeq⟩
    cases C with
    | nil =>
      right
      refine ⟨w, ?_, ?_⟩
      · rw [hw]
        show (if skipWs ([] : Str) = [] then some w else none) = some w
        simp [skipWs]
      · intro kvs hkvs
        rcases hkeq kvs hkvs with ⟨kvs2, hw2, hmap⟩
        refine ⟨kvs2, hw2, ?_⟩
        rw [hmap]
        exact fun a ha => ha
    | cons c2 C2 =>
      left
      rw [hw]
      show (if skipWs (c2 :: C2) = [] then some w else none) = none
      rw [skipWs_closers hC]
      simp

theorem jsonParse_take_keys (kvs : List (Str × Json)) (m : Nat) (C : Str) (hC : Closers C) :
    jsonParse ((serialize (Json.obj kvs)).take m ++ C) = none ∨
    ∃ kvs', jsonParse ((serialize (Json.obj kvs)).take m ++ C) = some (Json.obj kvs') ∧
      ∀ k ∈ kvs'.map Prod.fst, k ∈ kvs.map Prod.fst := by
  rcases jsonParse_prefix_closers (Json.obj kvs) m C hC with h | ⟨w, hw, hsub⟩
  · exact Or.inl h
  · rcases hsub kvs rfl with ⟨kvs', hw', hk⟩
    right
    refine ⟨kvs', ?_, hk⟩
    rw [← hw']
    exact hw

theorem jsonParse_take (kvs : List (Str × Json)) (m : Nat) :
    jsonParse ((serialize (Json.obj kvs)).take m) = none ∨
    ∃ kvs', jsonParse ((serialize (Json.obj kvs)).take m) = some (Json.obj kvs') ∧
      ∀ k ∈ kvs'.map Prod.fst, k ∈ kvs.map Prod.fst := by
  have h := jsonParse_take_keys kvs m [] closers_nil
  rwa [List.append_nil] at h

theorem closeBalance_closers_decomp (s : Str) :
    ∃ C, Closers C ∧ closeBalance s = s ++ C := by
  refine ⟨List.replicate (openBracketsCount s).toNat ']' ++
    List.replicate (openBracesCount s).toNat '}', ?_, ?_⟩
  · intro c hc
    rcases List.mem_append.mp hc with h | h
    · exact Or.inr (List.eq_of_mem_replicate h)
    · exact Or.inl (List.eq_of_mem_replicate h)
  · rw [closeBalance, List.append_assoc]

theorem jsonParse_closeBalance_take (kvs : List (Str × Json)) (m : Nat) :
    jsonParse (closeBalance ((serialize (Json.obj kvs)).take m)) = none ∨
    ∃ kvs', jsonParse (closeBalance ((serialize (Json.obj kvs)).take m)) =
        some (Json.obj kvs') ∧
      ∀ k ∈ kvs'.map Prod.fst, k ∈ kvs.map Prod.fst := by
  rcases closeBalance_closers_decomp ((serialize (Json.obj kvs)).take m) with ⟨C, hC, hdecomp⟩
  rw [hdecomp]
  exact jsonParse_take_keys kvs m C hC

theorem dropWhileRight_pre (p : Char → Bool) (s : Str) :
    dropWhileRight p s <+: s := by
  rw [dropWhileRight]
  rcases List.dropWhile_suffix p (l := s.reverse) with ⟨t, ht⟩
  refine ⟨t.reverse, ?_⟩
  rw [← List.reverse_append, ht, List.reverse_reverse]

theorem isPrefix_eq_take {P S : Str} (h : P <+: S) : ∃ m, P = S.take m :=
  ⟨P.length, List.prefix_iff_eq_take.mp h⟩

theorem dropWhileRight_ne_nil {p : Char → Bool} {c : Char} {r : Str} (hc : p c = false) :
    dropWhileRight p (c :: r) ≠ [] := by
  rw [dropWhileRight]
  intro h
  have h2 : (c :: r).reverse.dropWhile p = [] := by
    have := congrArg List.reverse h
    rwa [List.reverse_reverse, List.reverse_nil] at this
  have h3 := List.dropWhile_eq_nil_iff.mp h2 c (by simp)
  simp [hc] at h3

theorem repairStrategy1_shape (s : Str) :
    repairStrategy1 s = none ∨ repairStrategy1 s = some s ∨
      ∃ q, repairStrategy1 s = some (closeBalance (s.take (q + 1))) := by
  rw [repairStrategy1]
  by_cases h1 : s.getLast? = some '"'
  · right
    left
    simp [h1]
  · rw [if_neg h1]
    cases hq : lastIndexOfChar '"' s with
    | none => exact Or.inl rfl
    | some q =>
      by_cases h2 : 0 < q
      · right
        right
        exact ⟨q, by simp [h2]⟩
      · left
        simp [h2]

theorem stripTrailingComma_shape (s : Str) :
    stripTrailingComma s = s ∨
      stripTrailingComma s = (dropWhileRight isWsChar s).dropLast := by
  rw [stripTrailingComma]
  by_cases h : (dropWhileRight isWsChar s).getLast? = some ','
  · right
    simp [h]
  · left
    simp [h]

theorem repairTruncatedJson_scanSome (response J : Str) (e : Nat)
    (hJ : jsTrim response = J) (hidx : indexOfChar '{' J = some 0)
    (hscan : braceScanEnd J = some e) :
    repairTruncatedJson response = jsonParse (J.take (e + 1)) := by
  rw [repairTruncatedJson, hJ]
  simp only [hidx, List.drop_zero, hscan]

theorem repairTruncatedJson_scanNone (response J : Str)
    (hJ : jsTrim response = J) (hidx : indexOfChar '{' J = some 0)
    (hscan : braceScanEnd J = none) :
    repairTruncatedJson response =
      (match (repairStrategy1 J).bind jsonParse with
       | some v => some v
       | none => jsonParse (repairStrategy2 J)) := by
  rw [repairTruncatedJson, hJ]
  simp only [hidx, List.drop_zero, hscan]

/-- **C1** For every JSON object serialized by `serialize` and truncated
at any byte offset at least 50% of its length, `repairTruncatedJson`
never throws (the embedding is total and this theorem covers every
branch), and whenever it returns a non-null value, that value is a JSON
object whose keys are a subset of the original object's keys. -/
theorem repair_truncation_key_subset (kvs : List (Str × Json)) (n : Nat)
    (hhalf : (serialize (Json.obj kvs)).length ≤ 2 * n) :
    repairTruncatedJson ((serialize (Json.obj kvs)).take n) = none ∨
    ∃ kvs', repairTruncatedJson ((serialize (Json.obj kvs)).take n) =
        some (Json.obj kvs') ∧
      ∀ k ∈ kvs'.map Prod.fst, k ∈ kvs.map Prod.fst := by
  cases n with
  | zero => exact Or.inl rfl
  | succ n0 =>
    have hS : serialize (Json.obj kvs) = '{' :: (serializeMembers kvs ++ ['}']) := by
      rw [serialize]
      simp
    have hdw : ((serialize (Json.obj kvs)).take (n0 + 1)).dropWhile isWsChar =
        (serialize (Json.obj kvs)).take (n0 + 1) := by
      rw [hS, List.take_succ_cons]
      simp [List.dropWhile_cons, isWsChar]
    have hpre0 : jsTrim ((serialize (Json.obj kvs)).take (n0 + 1)) <+:
        (serialize (Json.obj kvs)).take (n0 + 1) := by
      rw [jsTrim, hdw]
      exact dropWhileRight_pre _ _
    have hne : jsTrim ((serialize (Json.obj kvs)).take (n0 + 1)) ≠ [] := by
      rw [jsTrim, hdw, hS, List.take_succ_cons]
      exact dropWhileRight_ne_nil (by decide)
    obtain ⟨m1, hm1⟩ := isPrefix_eq_take (hpre0.trans (List.take_prefix _ _))
    obtain ⟨m2, hm2⟩ : ∃ m2, m1 = m2 + 1 := by
      cases hm1x : m1 with
      | zero =>
        exfalso
        rw [hm1x, List.take_zero] at hm1
        exact hne hm1
      | succ m2 => exact ⟨m2, rfl⟩
    subst hm2
    have hidx : indexOfChar '{' ((serialize (Json.obj kvs)).take (m2 + 1)) = some 0 := by
      rw [hS, List.take_succ_cons, indexOfChar]
      simp
    cases hscan : braceScanEnd ((serialize (Json.obj kvs)).take (m2 + 1)) with
    | some e =>
      rw [repairTruncatedJson_scanSome _ _ e hm1 hidx hscan, List.take_take]
      exact jsonParse_take kvs (min (e + 1) (m2 + 1))
    | none =>
      rw [repairTruncatedJson_scanNone _ _ hm1 hidx hscan]
      have hs2 : jsonParse (repairStrategy2
            ((serialize (Json.obj kvs)).take (m2 + 1))) = none ∨
          ∃ kvs', jsonParse (repairStrategy2
              ((serialize (Json.obj kvs)).take (m2 + 1))) = some (Json.obj kvs') ∧
            ∀ k ∈ kvs'.map Prod.fst, k ∈ kvs.map Prod.fst := by
        rw [repairStrategy2]
        rcases stripTrailingComma_shape ((serialize (Json.obj kvs)).take (m2 + 1)) with h | h
        · rw [h]
          exact jsonParse_closeBalance_take kvs (m2 + 1)
        · rw [h]
          obtain ⟨m3, hm3⟩ := isPrefix_eq_take
            ((List.dropLast_prefix (dropWhileRight isWsChar
                ((serialize (Json.obj kvs)).take (m2 + 1)))).trans
              ((dropWhileRight_pre isWsChar
                ((serialize (Json.obj kvs)).take (m2 + 1))).trans
                (List.take_prefix (m2 + 1) (serialize (Json.obj kvs)))))
          rw [hm3]
          exact jsonParse_closeBalance_take kvs m3
      cases hbind : (repairStrategy1
          ((serialize (Json.obj kvs)).take (m2 + 1))).bind jsonParse with
      | none => exact hs2
      | some w =>
        rcases Option.bind_eq_some.mp hbind with ⟨P, hP, hPparse⟩
        have hobj : ∃ kvs', w = Json.obj kvs' ∧
            ∀ k ∈ kvs'.map Prod.fst, k ∈ kvs.map Prod.fst := by
          rcases repairStrategy1_shape ((serialize (Json.obj kvs)).take (m2 + 1)) with
            h | h | ⟨q, h⟩
          · rw [h] at hP
            cases hP
          · rw [h] at hP
            injection hP with hPeq
            subst hPeq
            rcases jsonParse_take kvs (m2 + 1) with hnone | ⟨kvs', hsome, hk⟩
            · rw [hPparse] at hnone
              cases hnone
            · rw [hPparse] at hsome
              injection hsome with hweq
              exact ⟨kvs', hweq, hk⟩
          · rw [h] at hP
            injection hP with hPeq
            subst hPeq
            rw [List.take_take] at hPparse
            rcases jsonParse_closeBalance_take kvs (min (q + 1) (m2 + 1)) with
              hnone | ⟨kvs', hsome, hk⟩
            · rw [hPparse] at hnone
              cases hnone
            · rw [hPparse] at hsome
              injection hsome with hweq
              exact ⟨kvs', hweq, hk⟩
        rcases hobj with ⟨kvs', hweq, hk⟩
        right
        refine ⟨kvs', ?_, hk⟩
        exact congrArg some hweq

theorem repair_truncation_key_subset_witness :
    (serialize (Json.obj [(['a'], Json.num 1), (['b'], Json.num 2)])).length ≤ 2 * 7 ∧
    (repairTruncatedJson ((serialize (Json.obj
        [(['a'], Json.num 1), (['b'], Json.num 2)])).take 7) = none ∨
     ∃ kvs', repairTruncatedJson ((serialize (Json.obj
        [(['a'], Json.num 1), (['b'], Json.num 2)])).take 7) = some (Json.obj kvs') ∧
       ∀ k ∈ kvs'.map Prod.fst,
         k ∈ ([(['a'], Json.num 1), (['b'], Json.num 2)] :
            List (Str × Json)).map Prod.fst) :=
  ⟨by decide,
   repair_truncation_key_subset [(['a'], Json.num 1), (['b'], Json.num 2)] 7 (by decide)⟩
